import Mathlib

/-!
Verification development for a small C-like front-end pipeline:
tokenizer (lexer.py), recursive-descent parser (parser.py), semantic
analyzer (semantic.py) and control-flow-chart builder (flowchart.py).

Each Python function is shallowly embedded as an executable Lean
definition.  Recursive walks carry an explicit fuel parameter; running
out of fuel yields an `Except.error "recursion limit exceeded"`, so any
`Except.ok` result corresponds to a genuinely completed run of the
Python code.  Python exceptions (RuntimeError, NameError, IndexError,
AttributeError/TypeError on `None`) are modelled as `Except.error`
values.
-/

namespace CompProject

/-- A lexical token, mirroring the Python dict `\x7b'type': …, 'value': …\x7d`.
(The parser's synthetic EOF sentinel carries no observable value; we use
`""` for it, which the Python code never reads.) -/
structure Token where
  type : String
  value : String
deriving DecidableEq, Repr

/-! ## Lexer (lexer.py)

The Python lexer repeatedly applies a combined regex
`(?P<INT>\bint\b)|(?P<MAIN>\bmain\b)|…|(?P<MISMATCH>.)` at the current
position; the first alternative that matches wins.  We embed exactly
that: at each position we try the patterns in specification order.
`\b` at the start of a keyword pattern holds iff the previous character
is not a word character (all keywords start with a word character); `\b`
at the end holds iff the following character is absent or not a word
character.  `.` does not match a newline. -/

/-- Python regex `\w` restricted to ASCII input: `[A-Za-z0-9_]`. -/
def isWordChar (c : Char) : Bool :=
  c.isAlpha || c.isDigit || c == '_'

/-- Drop a literal character sequence from the front of the input,
returning the rest on success. -/
def dropLit : List Char → List Char → Option (List Char)
  | [], s => some s
  | _ :: _, [] => none
  | k :: ks, c :: cs => if c = k then dropLit ks cs else none

/-- Match the anchored keyword pattern `\bKW\b` at the current position.
`prevWord` records whether the character before the current position is
a word character. -/
def matchKw (kw : String) (prevWord : Bool) (s : List Char) : Option (List Char) :=
  if prevWord then none
  else
    match dropLit kw.data s with
    | none => none
    | some rest =>
      match rest with
      | [] => some rest
      | c :: _ => if isWordChar c then none else some rest

/-- The keyword patterns of `token_specification`, in order. -/
def kwSpecs : List (String × String) :=
  [("INT", "int"), ("MAIN", "main"), ("IF", "if"), ("ELSE", "else"),
   ("WHILE", "while"), ("FOR", "for"), ("DO", "do"), ("RETURN", "return")]

/-- Non-greedy body of the STRING pattern `\".*?\"` after the opening
quote: the shortest run of non-newline characters followed by `"`.
Returns the consumed characters (closing quote included) and the rest. -/
def scanStr : List Char → Option (List Char × List Char)
  | [] => none
  | c :: cs =>
    if c = '"' then some ([c], cs)
    else if c = '\n' then none
    else
      match scanStr cs with
      | some (tk, rest) => some (c :: tk, rest)
      | none => none

/-- The OP pattern `==|!=|<=|>=|<<|>>|[+\-*/%=<>]`: two-character
alternatives in written order, then the single-character class. -/
def matchOp : List Char → Option (List Char × List Char)
  | a :: b :: rest =>
    if a = '=' ∧ b = '=' then some (['=', '='], rest)
    else if a = '!' ∧ b = '=' then some (['!', '='], rest)
    else if a = '<' ∧ b = '=' then some (['<', '='], rest)
    else if a = '>' ∧ b = '=' then some (['>', '='], rest)
    else if a = '<' ∧ b = '<' then some (['<', '<'], rest)
    else if a = '>' ∧ b = '>' then some (['>', '>'], rest)
    else if a ∈ ['+', '-', '*', '/', '%', '=', '<', '>'] then some ([a], b :: rest)
    else none
  | [a] =>
    if a ∈ ['+', '-', '*', '/', '%', '=', '<', '>'] then some ([a], [])
    else none
  | [] => none

/-- One step of the combined regex at the current position: returns the
produced token (`none` for SKIP), the remaining input, and whether the
last consumed character is a word character (the `\b` context for the
next step).  MISMATCH raises, as in `lexer`. -/
def lexStep (pos : Nat) (prevWord : Bool) (s : List Char) :
    Except String (Option Token × List Char × Bool) :=
  match matchKw "int" prevWord s with
  | some rest => .ok (some ⟨"INT", "int"⟩, rest, true)
  | none =>
  match matchKw "main" prevWord s with
  | some rest => .ok (some ⟨"MAIN", "main"⟩, rest, true)
  | none =>
  match matchKw "if" prevWord s with
  | some rest => .ok (some ⟨"IF", "if"⟩, rest, true)
  | none =>
  match matchKw "else" prevWord s with
  | some rest => .ok (some ⟨"ELSE", "else"⟩, rest, true)
  | none =>
  match matchKw "while" prevWord s with
  | some rest => .ok (some ⟨"WHILE", "while"⟩, rest, true)
  | none =>
  match matchKw "for" prevWord s with
  | some rest => .ok (some ⟨"FOR", "for"⟩, rest, true)
  | none =>
  match matchKw "do" prevWord s with
  | some rest => .ok (some ⟨"DO", "do"⟩, rest, true)
  | none =>
  match matchKw "return" prevWord s with
  | some rest => .ok (some ⟨"RETURN", "return"⟩, rest, true)
  | none =>
  match s with
  | [] => .error "no match at end of input"
  | c :: cs =>
    -- ID: [A-Za-z_][A-Za-z0-9_]*
    if c.isAlpha || c == '_' then
      let taken := cs.takeWhile isWordChar
      let rest := cs.dropWhile isWordChar
      .ok (some ⟨"ID", String.mk (c :: taken)⟩, rest, true)
    -- NUM: \d+
    else if c.isDigit then
      let taken := cs.takeWhile Char.isDigit
      let rest := cs.dropWhile Char.isDigit
      .ok (some ⟨"NUM", String.mk (c :: taken)⟩, rest, true)
    -- STRING: \".*?\" — if there is no closing quote (or a newline comes
    -- first) the pattern fails and the quote falls through every later
    -- pattern down to MISMATCH, which raises.
    else if c = '"' then
      match scanStr cs with
      | some (tk, rest) => .ok (some ⟨"STRING", String.mk (c :: tk)⟩, rest, false)
      | none =>
        .error ("Unexpected character \x27" ++ String.singleton c ++
          "\x27 at position " ++ toString pos)
    else
      match matchOp (c :: cs) with
      | some (tk, rest) => .ok (some ⟨"OP", String.mk tk⟩, rest, false)
      | none =>
        if c = '(' then .ok (some ⟨"LPAREN", "("⟩, cs, false)
        else if c = ')' then .ok (some ⟨"RPAREN", ")"⟩, cs, false)
        else if c = '\x7b' then .ok (some ⟨"LBRACE", "\x7b"⟩, cs, false)
        else if c = '\x7d' then .ok (some ⟨"RBRACE", "\x7d"⟩, cs, false)
        else if c = ';' then .ok (some ⟨"SEMI", ";"⟩, cs, false)
        else if c = ' ' ∨ c = '\t' ∨ c = '\n' then
          let ws : Char → Bool := fun x => x = ' ' ∨ x = '\t' ∨ x = '\n'
          .ok (none, cs.dropWhile ws, false)
        else
          .error ("Unexpected character \x27" ++ String.singleton c ++
            "\x27 at position " ++ toString pos)

/-- The scanning loop of `lexer`: apply `lexStep` until the input is
exhausted (regex match fails only at end of input, ending the loop). -/
def lexLoop (fuel : Nat) (pos : Nat) (prevWord : Bool) (s : List Char)
    (acc : List Token) : Except String (List Token) :=
  match s with
  | [] => .ok acc
  | _ =>
    match fuel with
    | 0 => .error "recursion limit exceeded"
    | fuel + 1 =>
      match lexStep pos prevWord s with
      | .error e => .error e
      | .ok (tok?, rest, pw) =>
        let consumed := s.length - rest.length
        let acc := match tok? with
          | some t => acc ++ [t]
          | none => acc
        lexLoop fuel (pos + consumed) pw rest acc

/-- `lexer(code)`: tokenize a whole source string. -/
def lexer (code : String) : Except String (List Token) :=
  lexLoop (code.data.length + 1) 0 false code.data []

/-! ## AST (astnode.py)

`ASTNode` has a kind string, an optional scalar payload (Python `None`
becomes `Option.none`) and an ordered child list.  The parser's
`for_stmt` appends possibly-`None` children, so the child list holds
`Option ASTNode`. -/

inductive ASTNode : Type where
  | mk (type : String) (value : Option String) (children : List (Option ASTNode)) : ASTNode

def ASTNode.type : ASTNode → String
  | .mk t _ _ => t

def ASTNode.value : ASTNode → Option String
  | .mk _ v _ => v

def ASTNode.children : ASTNode → List (Option ASTNode)
  | .mk _ _ c => c

/-- Python renders `None` as `"None"` inside f-strings; node payloads are
interpolated into labels and messages this way. -/
def optStr : Option String → String
  | some s => s
  | none => "None"

/-- `node.children[i]` where the element must be an actual node: a
missing index is an `IndexError`, a `None` element makes the subsequent
attribute access an `AttributeError`.  Both abort the walk. -/
def childNode (n : ASTNode) (i : Nat) : Except String ASTNode :=
  match n.children.get? i with
  | some (some c) => .ok c
  | some none => .error "AttributeError: NoneType has no attribute"
  | none => .error "IndexError: list index out of range"

/-- `node.children[i]` where a `None` element is acceptable (the Python
code guards it with `if child:`). A missing index is an `IndexError`. -/
def childElem (n : ASTNode) (i : Nat) : Except String (Option ASTNode) :=
  match n.children.get? i with
  | some e => .ok e
  | none => .error "IndexError: list index out of range"

/-- Python `str.strip()`: drop leading and trailing whitespace. -/
def pyStrip (s : String) : String :=
  String.mk (((s.data.dropWhile Char.isWhitespace).reverse.dropWhile
    Char.isWhitespace).reverse)

/-! ## Parser (parser.py)

Recursive descent over the token list; `pos` is the cursor.  Every
function takes fuel and passes the predecessor to each call it makes, so
that the mutual recursion is structural in the fuel. -/

/-- `self.current()`: the token at the cursor, or an EOF sentinel. -/
def currentTok (ts : List Token) (pos : Nat) : Token :=
  match ts.get? pos with
  | some t => t
  | none => ⟨"EOF", ""⟩

/-- `self.eat(token_type)`: consume the expected token or raise. -/
def eat (ts : List Token) (pos : Nat) (tokenType : String) :
    Except String (Token × Nat) :=
  let c := currentTok ts pos
  if c.type = tokenType then .ok (c, pos + 1)
  else
    .error ("Expected token type " ++ tokenType ++ " but got " ++ c.type ++
      " (" ++ c.value ++ ")")

/-- `type_spec`: only `int` is supported. -/
def type_spec (ts : List Token) (pos : Nat) : Except String (ASTNode × Nat) := do
  let (tok, pos) ← eat ts pos "INT"
  .ok (ASTNode.mk "type" (some tok.value) [], pos)

/-- The token-gathering loop of the generic-statement fallback in
`stmt`: collect token texts until the next SEMI (consumed and included)
or EOF. -/
def gatherGeneric (ts : List Token) (fuel : Nat) (pos : Nat)
    (acc : List String) : Except String (List String × Nat) :=
  match fuel with
  | 0 => .error "recursion limit exceeded"
  | fuel + 1 =>
    let c := currentTok ts pos
    if c.type ≠ "SEMI" ∧ c.type ≠ "EOF" then
      gatherGeneric ts fuel (pos + 1) (acc ++ [c.value])
    else if c.type = "SEMI" then
      .ok (acc ++ [c.value], pos + 1)
    else
      .ok (acc, pos)

mutual

/-- `program → function` -/
def program (ts : List Token) (fuel : Nat) (pos : Nat) :
    Except String (ASTNode × Nat) :=
  match fuel with
  | 0 => .error "recursion limit exceeded"
  | fuel + 1 => do
    let (f, pos) ← function ts fuel pos
    .ok (ASTNode.mk "program" none [some f], pos)

/-- `function → type_spec 'main' '(' ')' compound_stmt` -/
def function (ts : List Token) (fuel : Nat) (pos : Nat) :
    Except String (ASTNode × Nat) :=
  match fuel with
  | 0 => .error "recursion limit exceeded"
  | fuel + 1 => do
    let (ty, pos) ← type_spec ts pos
    let (mainTok, pos) ← eat ts pos "MAIN"
    let (body, pos) ← (do
      let (_, pos) ← eat ts pos "LPAREN"
      let (_, pos) ← eat ts pos "RPAREN"
      compound_stmt ts fuel pos)
    .ok (ASTNode.mk "function" none
      [some ty, some (ASTNode.mk "main" (some mainTok.value) []), some body], pos)

/-- `compound_stmt → '\x7b' stmt* '\x7d'` -/
def compound_stmt (ts : List Token) (fuel : Nat) (pos : Nat) :
    Except String (ASTNode × Nat) :=
  match fuel with
  | 0 => .error "recursion limit exceeded"
  | fuel + 1 => do
    let (_, pos) ← eat ts pos "LBRACE"
    let (stmts, pos) ← stmtSeq ts fuel pos
    let (_, pos) ← eat ts pos "RBRACE"
    .ok (ASTNode.mk "compound_stmt" none stmts, pos)
termination_by structural fuel

/-- The `while self.current()['type'] in (…)` loop of `compound_stmt`. -/
def stmtSeq (ts : List Token) (fuel : Nat) (pos : Nat) :
    Except String (List (Option ASTNode) × Nat) :=
  match fuel with
  | 0 => .error "recursion limit exceeded"
  | fuel + 1 =>
    let t := (currentTok ts pos).type
    if t = "INT" ∨ t = "ID" ∨ t = "IF" ∨ t = "RETURN" ∨ t = "WHILE" ∨
        t = "FOR" ∨ t = "DO" then do
      let (s, pos) ← stmt ts fuel pos
      let (rest, pos) ← stmtSeq ts fuel pos
      .ok (some s :: rest, pos)
    else
      .ok ([], pos)
termination_by structural fuel

/-- `stmt`: dispatch on the current token; a leading identifier is
disambiguated by one token of lookahead (assignment iff the next token
is the `=` operator, otherwise the generic-statement fallback). -/
def stmt (ts : List Token) (fuel : Nat) (pos : Nat) :
    Except String (ASTNode × Nat) :=
  match fuel with
  | 0 => .error "recursion limit exceeded"
  | fuel + 1 =>
    let tok := currentTok ts pos
    if tok.type = "INT" then var_decl ts fuel pos
    else if tok.type = "ID" then
      let next_tok := match ts.get? (pos + 1) with
        | some t => t
        | none => ⟨"EOF", ""⟩
      if next_tok.type = "OP" ∧ next_tok.value = "=" then
        assign_stmt ts fuel pos
      else do
        let (text_tokens, pos) ← gatherGeneric ts fuel pos []
        let raw_text := pyStrip (String.intercalate " " text_tokens)
        .ok (ASTNode.mk "stmt" (some raw_text) [], pos)
    else if tok.type = "IF" then if_stmt ts fuel pos
    else if tok.type = "RETURN" then return_stmt ts fuel pos
    else if tok.type = "WHILE" then while_stmt ts fuel pos
    else if tok.type = "FOR" then for_stmt ts fuel pos
    else if tok.type = "DO" then do_while_stmt ts fuel pos
    else .error ("Unexpected token in stmt(): " ++ tok.type)
termination_by structural fuel

/-- `var_decl → 'int' ID ('=' expr)? ';'` -/
def var_decl (ts : List Token) (fuel : Nat) (pos : Nat) :
    Except String (ASTNode × Nat) :=
  match fuel with
  | 0 => .error "recursion limit exceeded"
  | fuel + 1 => do
    let (ty, pos) ← type_spec ts pos
    let (idTok, pos) ← eat ts pos "ID"
    let cur := currentTok ts pos
    if cur.type = "OP" ∧ cur.value = "=" then do
      let (_, pos) ← eat ts pos "OP"
      let (init, pos) ← expr ts fuel pos
      let (_, pos) ← eat ts pos "SEMI"
      .ok (ASTNode.mk "var_decl" none
        [some ty, some (ASTNode.mk "id" (some idTok.value) []), some init], pos)
    else do
      let (_, pos) ← eat ts pos "SEMI"
      .ok (ASTNode.mk "var_decl" none
        [some ty, some (ASTNode.mk "id" (some idTok.value) [])], pos)

/-- `assign_stmt → ID '=' expr ';'` -/
def assign_stmt (ts : List Token) (fuel : Nat) (pos : Nat) :
    Except String (ASTNode × Nat) :=
  match fuel with
  | 0 => .error "recursion limit exceeded"
  | fuel + 1 => do
    let (idTok, pos) ← eat ts pos "ID"
    let (_, pos) ← eat ts pos "OP"
    let (e, pos) ← expr ts fuel pos
    let (_, pos) ← eat ts pos "SEMI"
    .ok (ASTNode.mk "assign" none
      [some (ASTNode.mk "id" (some idTok.value) []), some e], pos)

/-- `if_stmt → 'if' '(' expr ')' body ('else' body)?` -/
def if_stmt (ts : List Token) (fuel : Nat) (pos : Nat) :
    Except String (ASTNode × Nat) :=
  match fuel with
  | 0 => .error "recursion limit exceeded"
  | fuel + 1 => do
    let (_, pos) ← eat ts pos "IF"
    let (_, pos) ← eat ts pos "LPAREN"
    let (cond, pos) ← expr ts fuel pos
    let (_, pos) ← eat ts pos "RPAREN"
    let (thenB, pos) ←
      if (currentTok ts pos).type = "LBRACE" then compound_stmt ts fuel pos
      else stmt ts fuel pos
    if (currentTok ts pos).type = "ELSE" then do
      let (_, pos) ← eat ts pos "ELSE"
      let (elseB, pos) ←
        if (currentTok ts pos).type = "LBRACE" then compound_stmt ts fuel pos
        else stmt ts fuel pos
      .ok (ASTNode.mk "if_stmt" none [some cond, some thenB, some elseB], pos)
    else
      .ok (ASTNode.mk "if_stmt" none [some cond, some thenB], pos)
termination_by structural fuel

/-- `while_stmt → 'while' '(' expr ')' body` -/
def while_stmt (ts : List Token) (fuel : Nat) (pos : Nat) :
    Except String (ASTNode × Nat) :=
  match fuel with
  | 0 => .error "recursion limit exceeded"
  | fuel + 1 => do
    let (_, pos) ← eat ts pos "WHILE"
    let (_, pos) ← eat ts pos "LPAREN"
    let (cond, pos) ← expr ts fuel pos
    let (_, pos) ← eat ts pos "RPAREN"
    let (body, pos) ←
      if (currentTok ts pos).type = "LBRACE" then compound_stmt ts fuel pos
      else stmt ts fuel pos
    .ok (ASTNode.mk "while" none [some cond, some body], pos)
termination_by structural fuel

/-- `for_stmt → 'for' '(' (var_decl|assign_stmt|';') expr? ';' assign_expr? ')' body` -/
def for_stmt (ts : List Token) (fuel : Nat) (pos : Nat) :
    Except String (ASTNode × Nat) :=
  match fuel with
  | 0 => .error "recursion limit exceeded"
  | fuel + 1 => do
    let (_, pos) ← eat ts pos "FOR"
    let (_, pos) ← eat ts pos "LPAREN"
    -- INIT clause
    let (initN, pos) ←
      if (currentTok ts pos).type = "INT" then do
        let (n, pos) ← var_decl ts fuel pos
        .ok ((some n : Option ASTNode), pos)
      else if (currentTok ts pos).type = "ID" then do
        let (n, pos) ← assign_stmt ts fuel pos
        .ok ((some n : Option ASTNode), pos)
      else do
        let (_, pos) ← eat ts pos "SEMI"
        .ok ((none : Option ASTNode), pos)
    -- COND clause
    let (condN, pos) ←
      if (currentTok ts pos).type ≠ "SEMI" then do
        let (c, pos) ← expr ts fuel pos
        let (_, pos) ← eat ts pos "SEMI"
        .ok ((some c : Option ASTNode), pos)
      else do
        let (_, pos) ← eat ts pos "SEMI"
        .ok ((none : Option ASTNode), pos)
    -- UPDATE clause (no semicolon)
    let (updN, pos) ←
      if (currentTok ts pos).type = "ID" then do
        let (u, pos) ← assign_expr ts fuel pos
        .ok ((some u : Option ASTNode), pos)
      else
        .ok ((none : Option ASTNode), pos)
    let (_, pos) ← eat ts pos "RPAREN"
    -- LOOP BODY
    let (body, pos) ←
      if (currentTok ts pos).type = "LBRACE" then compound_stmt ts fuel pos
      else stmt ts fuel pos
    .ok (ASTNode.mk "for" none [initN, condN, updN, some body], pos)
termination_by structural fuel

/-- `do_while_stmt → 'do' body 'while' '(' expr ')' ';'` -/
def do_while_stmt (ts : List Token) (fuel : Nat) (pos : Nat) :
    Except String (ASTNode × Nat) :=
  match fuel with
  | 0 => .error "recursion limit exceeded"
  | fuel + 1 => do
    let (_, pos) ← eat ts pos "DO"
    let (body, pos) ←
      if (currentTok ts pos).type = "LBRACE" then compound_stmt ts fuel pos
      else stmt ts fuel pos
    let (_, pos) ← eat ts pos "WHILE"
    let (_, pos) ← eat ts pos "LPAREN"
    let (cond, pos) ← expr ts fuel pos
    let (_, pos) ← eat ts pos "RPAREN"
    let (_, pos) ← eat ts pos "SEMI"
    .ok (ASTNode.mk "do_while" none [some body, some cond], pos)
termination_by structural fuel

/-- `return_stmt → 'return' expr ';'` -/
def return_stmt (ts : List Token) (fuel : Nat) (pos : Nat) :
    Except String (ASTNode × Nat) :=
  match fuel with
  | 0 => .error "recursion limit exceeded"
  | fuel + 1 => do
    let (_, pos) ← eat ts pos "RETURN"
    let (e, pos) ← expr ts fuel pos
    let (_, pos) ← eat ts pos "SEMI"
    .ok (ASTNode.mk "return_stmt" none [some e], pos)

/-- `assign_expr → ID '=' expr` (for-loop update clause). -/
def assign_expr (ts : List Token) (fuel : Nat) (pos : Nat) :
    Except String (ASTNode × Nat) :=
  match fuel with
  | 0 => .error "recursion limit exceeded"
  | fuel + 1 => do
    let (idTok, pos) ← eat ts pos "ID"
    let (_, pos) ← eat ts pos "OP"
    let (e, pos) ← expr ts fuel pos
    .ok (ASTNode.mk "assign" none
      [some (ASTNode.mk "id" (some idTok.value) []), some e], pos)

/-- `expr → arith_expr (cmp_op arith_expr)?` -/
def expr (ts : List Token) (fuel : Nat) (pos : Nat) :
    Except String (ASTNode × Nat) :=
  match fuel with
  | 0 => .error "recursion limit exceeded"
  | fuel + 1 => do
    let (n, pos) ← arith_expr ts fuel pos
    let cur := currentTok ts pos
    if cur.type = "OP" ∧ (cur.value = "<" ∨ cur.value = ">" ∨ cur.value = "==" ∨
        cur.value = "!=" ∨ cur.value = "<=" ∨ cur.value = ">=") then do
      let (opTok, pos) ← eat ts pos "OP"
      let (r, pos) ← arith_expr ts fuel pos
      .ok (ASTNode.mk "comparison" (some opTok.value) [some n, some r], pos)
    else
      .ok (n, pos)
termination_by structural fuel

/-- `arith_expr → term (('+'|'-') term)*` -/
def arith_expr (ts : List Token) (fuel : Nat) (pos : Nat) :
    Except String (ASTNode × Nat) :=
  match fuel with
  | 0 => .error "recursion limit exceeded"
  | fuel + 1 => do
    let (n, pos) ← term ts fuel pos
    arithLoop ts fuel n pos
termination_by structural fuel

/-- The `('+'|'-')`-iteration of `arith_expr` (left-associative). -/
def arithLoop (ts : List Token) (fuel : Nat) (node : ASTNode) (pos : Nat) :
    Except String (ASTNode × Nat) :=
  match fuel with
  | 0 => .error "recursion limit exceeded"
  | fuel + 1 =>
    let cur := currentTok ts pos
    if cur.type = "OP" ∧ (cur.value = "+" ∨ cur.value = "-") then do
      let (opTok, pos) ← eat ts pos "OP"
      let (r, pos) ← term ts fuel pos
      arithLoop ts fuel (ASTNode.mk "arith_expr" (some opTok.value)
        [some node, some r]) pos
    else
      .ok (node, pos)
termination_by structural fuel

/-- `term → factor (('*'|'/'|'%') factor)*` -/
def term (ts : List Token) (fuel : Nat) (pos : Nat) :
    Except String (ASTNode × Nat) :=
  match fuel with
  | 0 => .error "recursion limit exceeded"
  | fuel + 1 => do
    let (n, pos) ← factor ts fuel pos
    termLoop ts fuel n pos
termination_by structural fuel

/-- The `('*'|'/'|'%')`-iteration of `term` (left-associative). -/
def termLoop (ts : List Token) (fuel : Nat) (node : ASTNode) (pos : Nat) :
    Except String (ASTNode × Nat) :=
  match fuel with
  | 0 => .error "recursion limit exceeded"
  | fuel + 1 =>
    let cur := currentTok ts pos
    if cur.type = "OP" ∧ (cur.value = "*" ∨ cur.value = "/" ∨ cur.value = "%") then do
      let (opTok, pos) ← eat ts pos "OP"
      let (r, pos) ← factor ts fuel pos
      termLoop ts fuel (ASTNode.mk "term" (some opTok.value)
        [some node, some r]) pos
    else
      .ok (node, pos)
termination_by structural fuel

/-- `factor → NUM | ID | '(' expr ')'` -/
def factor (ts : List Token) (fuel : Nat) (pos : Nat) :
    Except String (ASTNode × Nat) :=
  match fuel with
  | 0 => .error "recursion limit exceeded"
  | fuel + 1 =>
    let tok := currentTok ts pos
    if tok.type = "NUM" then do
      let (_, pos) ← eat ts pos "NUM"
      .ok (ASTNode.mk "num" (some tok.value) [], pos)
    else if tok.type = "ID" then do
      let (_, pos) ← eat ts pos "ID"
      .ok (ASTNode.mk "id" (some tok.value) [], pos)
    else if tok.type = "LPAREN" then do
      let (_, pos) ← eat ts pos "LPAREN"
      let (n, pos) ← expr ts fuel pos
      let (_, pos) ← eat ts pos "RPAREN"
      .ok (n, pos)
    else
      .error ("Unexpected factor token " ++ tok.type)
termination_by structural fuel

end

/-- `Parser.parse`: parse from position 0.  Note that the reached
position is returned but never compared with the input length. -/
def parse (ts : List Token) (fuel : Nat) : Except String (ASTNode × Nat) :=
  program ts fuel 0

/-! ## Semantic analyzer (semantic.py)

A single tree walk carrying the declared-name set (insertion order) and
the diagnostic list.  Dispatch is by node kind to `visit_…`; kinds
without a handler recurse generically into the children. -/

structure SemState where
  symbols : List (Option String)
  errors : List String
deriving DecidableEq, Repr

mutual

/-- `SemanticAnalyzer.analyze`: dispatch on `node.type`. -/
def analyze (fuel : Nat) (node : ASTNode) (st : SemState) :
    Except String SemState :=
  match fuel with
  | 0 => .error "recursion limit exceeded"
  | fuel + 1 =>
    if node.type = "var_decl" then do
      let idN ← childNode node 1
      let var_name := idN.value
      let st :=
        if st.symbols.contains var_name then
          {st with errors := st.errors ++
            ["Semantic Error: Variable \x27" ++ optStr var_name ++ "\x27 already declared"]}
        else
          {st with symbols := st.symbols ++ [var_name]}
      if node.children.length = 3 then do
        let c2 ← childNode node 2
        analyze fuel c2 st
      else
        .ok st
    else if node.type = "assign" then do
      let idN ← childNode node 0
      let var_name := idN.value
      let st :=
        if st.symbols.contains var_name then st
        else
          {st with errors := st.errors ++
            ["Semantic Error: Variable \x27" ++ optStr var_name ++ "\x27 used before declaration"]}
      let c1 ← childNode node 1
      analyze fuel c1 st
    else if node.type = "id" then
      let var_name := node.value
      if st.symbols.contains var_name then .ok st
      else
        .ok {st with errors := st.errors ++
          ["Semantic Error: Variable \x27" ++ optStr var_name ++ "\x27 used before declaration"]}
    else if node.type = "if_stmt" then do
      let c0 ← childNode node 0
      let st ← analyze fuel c0 st
      let c1 ← childNode node 1
      let st ← analyze fuel c1 st
      if node.children.length = 3 then do
        let c2 ← childNode node 2
        analyze fuel c2 st
      else
        .ok st
    else if node.type = "while" then do
      let c0 ← childNode node 0
      let st ← analyze fuel c0 st
      let c1 ← childNode node 1
      analyze fuel c1 st
    else if node.type = "for" then do
      let e0 ← childElem node 0
      let st ← match e0 with
        | some c => analyze fuel c st
        | none => .ok st
      let e1 ← childElem node 1
      let st ← match e1 with
        | some c => analyze fuel c st
        | none => .ok st
      let e2 ← childElem node 2
      let st ← match e2 with
        | some c => analyze fuel c st
        | none => .ok st
      let c3 ← childNode node 3
      analyze fuel c3 st
    else if node.type = "do_while" then do
      let c0 ← childNode node 0
      let st ← analyze fuel c0 st
      let c1 ← childNode node 1
      analyze fuel c1 st
    else if node.type = "return_stmt" then do
      let c0 ← childNode node 0
      analyze fuel c0 st
    else
      genericChildren fuel node.children st

/-- `SemanticAnalyzer.generic_visit`: recurse into the non-`None`
children in order. -/
def genericChildren (fuel : Nat) (l : List (Option ASTNode)) (st : SemState) :
    Except String SemState :=
  match fuel with
  | 0 => .error "recursion limit exceeded"
  | fuel + 1 =>
    match l with
    | [] => .ok st
    | none :: rest => genericChildren fuel rest st
    | some c :: rest => do
      let st ← analyze fuel c st
      genericChildren fuel rest st

end

/-- Run the analyzer on a fresh `SemanticAnalyzer` instance. -/
def analyzeAST (fuel : Nat) (ast : ASTNode) : Except String SemState :=
  analyze fuel ast ⟨[], []⟩

/-! ## Flowchart builder (flowchart.py)

The graph description: ordered node and edge lists, a node-id counter
(ids are the `N` of the Python `'nodeN'` strings), the predecessor
cursor `last_node`, and the pending-join stack.  `dot.edge` with a
`None` endpoint is a fault in the Python graphviz binding; `addEdgeFrom`
models it as an error. -/

structure GNode where
  id : Nat
  label : String
  shape : String
deriving DecidableEq, Repr

structure GEdge where
  src : Nat
  dst : Nat
  label : Option String
deriving DecidableEq, Repr

structure FC where
  node_count : Nat
  last_node : Option Nat
  merge_stack : List Nat
  nodes : List GNode
  edges : List GEdge
deriving DecidableEq, Repr

/-- `_new_node_id`: bump the counter and return the fresh id. -/
def newNodeId (s : FC) : Nat × FC :=
  (s.node_count + 1, {s with node_count := s.node_count + 1})

/-- `dot.node(id, label, shape)`. -/
def addNode (s : FC) (id : Nat) (label shape : String) : FC :=
  {s with nodes := s.nodes ++ [⟨id, label, shape⟩]}

/-- `dot.edge(src, dst[, label])` with both endpoints present. -/
def addEdge (s : FC) (src dst : Nat) (label : Option String) : FC :=
  {s with edges := s.edges ++ [⟨src, dst, label⟩]}

/-- `dot.edge(src, dst[, label])` where the tail may be the cleared
cursor: passing `None` to graphviz raises. -/
def addEdgeFrom (s : FC) (src : Option Nat) (dst : Nat) (label : Option String) :
    Except String FC :=
  match src with
  | some a => .ok (addEdge s a dst label)
  | none => .error "TypeError: edge endpoint is None"

/-- `_make_invisible_merge`: a fresh invisible point node. -/
def mkInvisibleMerge (s : FC) : Nat × FC :=
  let (id, s) := newNodeId s
  (id, addNode s id "" "point")

def setLast (s : FC) (l : Option Nat) : FC :=
  {s with last_node := l}

/-- `_expr_to_str`: render an expression subtree. -/
def exprToStr (fuel : Nat) (node : Option ASTNode) : Except String String :=
  match fuel with
  | 0 => .error "recursion limit exceeded"
  | fuel + 1 =>
    match node with
    | none => .ok ""
    | some n =>
      if n.type = "num" then .ok (optStr n.value)
      else if n.type = "id" then .ok (optStr n.value)
      else if n.type = "comparison" ∨ n.type = "arith_expr" ∨ n.type = "term" then do
        let c0 ← childElem n 0
        let left ← exprToStr fuel c0
        let c1 ← childElem n 1
        let right ← exprToStr fuel c1
        .ok (left ++ " " ++ optStr n.value ++ " " ++ right)
      else
        .ok n.type

/-- `_formatter`: human-readable label for a statement node. -/
def formatter (fuel : Nat) (node : ASTNode) : Except String String :=
  match fuel with
  | 0 => .error "recursion limit exceeded"
  | fuel + 1 =>
    if node.type = "var_decl" then do
      let c0 ← childNode node 0
      let var_type := optStr c0.value
      let c1 ← childNode node 1
      let var_name := optStr c1.value
      if node.children.length = 3 then do
        let c2 ← childElem node 2
        let expr_str ← exprToStr fuel c2
        .ok (var_type ++ " " ++ var_name ++ " = " ++ expr_str)
      else
        .ok (var_type ++ " " ++ var_name)
    else if node.type = "assign" then do
      let c0 ← childNode node 0
      let var_name := optStr c0.value
      let c1 ← childElem node 1
      let expr_str ← exprToStr fuel c1
      .ok (var_name ++ " = " ++ expr_str)
    else if node.type = "return_stmt" then do
      let c0 ← childElem node 0
      let e ← exprToStr fuel c0
      .ok ("return " ++ e)
    else if node.type = "stmt" then
      .ok (optStr node.value)
    else if node.type = "if_stmt" then do
      let c0 ← childElem node 0
      let cond ← exprToStr fuel c0
      .ok ("if (" ++ cond ++ ")")
    else if node.type = "while" then do
      let c0 ← childElem node 0
      let cond ← exprToStr fuel c0
      .ok ("while (" ++ cond ++ ")")
    else if node.type = "for" then do
      let init ← childElem node 0
      let cond ← childElem node 1
      let upd ← childElem node 2
      let p0 ← match init with
        | some i => formatter fuel i
        | none => .ok ""
      let p1 ← match cond with
        | some _ => exprToStr fuel cond
        | none => .ok ""
      let p2 ← match upd with
        | some u => formatter fuel u
        | none => .ok ""
      .ok ("for (" ++ String.intercalate "; " [p0, p1, p2] ++ ")")
    else if node.type = "do_while" then
      .ok "do … while"
    else
      .ok node.type

mutual

/-- `_process_node`: walk the AST, emitting graph nodes and edges. -/
def processNode (fuel : Nat) (node : ASTNode) (s : FC) : Except String FC :=
  match fuel with
  | 0 => .error "recursion limit exceeded"
  | fuel + 1 =>
    -- 1) program / function / compound_stmt: just recurse over children
    if node.type = "program" ∨ node.type = "function" ∨ node.type = "compound_stmt" then
      processChildren fuel node.children s
    -- 2) basic process boxes
    else if node.type = "var_decl" ∨ node.type = "assign" ∨
        node.type = "return_stmt" ∨ node.type = "stmt" then do
      let (box_id, s) := newNodeId s
      let label ← formatter fuel node
      let s := addNode s box_id label "box"
      let s := match s.last_node with
        | some l => addEdge s l box_id none
        | none => s
      .ok (setLast s (some box_id))
    -- 3) IF statements
    else if node.type = "if_stmt" then do
      let (decision_id, s) := newNodeId s
      let lbl ← formatter fuel node
      let s := addNode s decision_id lbl "diamond"
      let s := match s.last_node with
        | some l => addEdge s l decision_id none
        | none => s
      -- (a) THEN branch
      let before_then := s.node_count
      let s := setLast s (some decision_id)
      let c1 ← childNode node 1
      let s ← processNode fuel c1 s
      let then_end := s.last_node
      let then_entry := before_then + 1
      -- (b) ELSE branch?
      if node.children.length = 3 then do
        let before_else := s.node_count
        let s := setLast s (some decision_id)
        let c2 ← childNode node 2
        let s ← processNode fuel c2 s
        let else_end := s.last_node
        let else_entry := before_else + 1
        let (merge_id, s) := mkInvisibleMerge s
        let s := {s with merge_stack := s.merge_stack ++ [merge_id]}
        let s ← addEdgeFrom s then_end merge_id none
        let s ← addEdgeFrom s else_end merge_id none
        let s := addEdge s decision_id then_entry (some "true")
        let s := addEdge s decision_id else_entry (some "false")
        .ok (setLast s (some merge_id))
      else do
        -- No ELSE: create or reuse a merge point; the false edge is then
        -- drawn through the undefined name `mergerId`, so the walk raises
        -- NameError after emitting the true edge.
        let (reused, merge_id, s) :=
          match s.merge_stack.getLast?, then_end with
          | some m, some te =>
            if te = m then (true, te, s)
            else
              let (mid, s) := mkInvisibleMerge s
              (false, mid, {s with merge_stack := s.merge_stack ++ [mid]})
          | _, _ =>
            let (mid, s) := mkInvisibleMerge s
            (false, mid, {s with merge_stack := s.merge_stack ++ [mid]})
        let s ← if reused then .ok s else addEdgeFrom s then_end merge_id none
        let s := addEdge s decision_id then_entry (some "true")
        let _ := s
        .error "NameError: name \x27mergerId\x27 is not defined"
    -- 4) WHILE loops
    else if node.type = "while" then do
      let (cond_id, s) := newNodeId s
      let lbl ← formatter fuel node
      let s := addNode s cond_id lbl "diamond"
      let s := match s.last_node with
        | some l => addEdge s l cond_id none
        | none => s
      -- body: temporarily suppress the auto-edge
      let before_body := s.node_count
      let s := setLast s none
      let c1 ← childNode node 1
      let s ← processNode fuel c1 s
      let body_end := s.last_node
      let body_entry := before_body + 1
      let s := addEdge s cond_id body_entry (some "true")
      let s ← addEdgeFrom s body_end cond_id none
      let (merge_id, s) := mkInvisibleMerge s
      let s := addEdge s cond_id merge_id (some "false")
      .ok (setLast s (some merge_id))
    -- 5) FOR loops (written with explicit matches; same monadic steps)
    else if node.type = "for" then
      match childElem node 0 with
      | .error e => .error e
      | .ok init =>
      match (match init with
             | some i => processNode fuel i s
             | none => Except.ok s) with
      | .error e => .error e
      | .ok s =>
      match newNodeId s with
      | (cond_id, s) =>
      match childElem node 1 with
      | .error e => .error e
      | .ok c1 =>
      match (match c1 with
             | some _ => exprToStr fuel c1
             | none => Except.ok "") with
      | .error e => .error e
      | .ok cond_label =>
      let s := addNode s cond_id ("for_cond (" ++ cond_label ++ ")") "diamond"
      let s := match s.last_node with
        | some l => addEdge s l cond_id none
        | none => s
      let before_body := s.node_count
      let s := setLast s none
      match childNode node 3 with
      | .error e => .error e
      | .ok c3 =>
      match processNode fuel c3 s with
      | .error e => .error e
      | .ok s =>
      let body_end := s.last_node
      let body_entry := before_body + 1
      let s := addEdge s cond_id body_entry (some "true")
      match childElem node 2 with
      | .error e => .error e
      | .ok upd =>
      match (match upd with
             | some u =>
               match newNodeId s with
               | (upd_id, s) =>
                 match formatter fuel u with
                 | .error e => Except.error e
                 | .ok l =>
                   let s := addNode s upd_id l "box"
                   match addEdgeFrom s body_end upd_id none with
                   | .error e => Except.error e
                   | .ok s => Except.ok (addEdge s upd_id cond_id none)
             | none => addEdgeFrom s body_end cond_id none) with
      | .error e => .error e
      | .ok s =>
      match mkInvisibleMerge s with
      | (merge_id, s) =>
        let s := addEdge s cond_id merge_id (some "false")
        .ok (setLast s (some merge_id))
    -- 6) DO-WHILE loops (note: the cursor is *not* cleared before the body)
    else if node.type = "do_while" then do
      let before_body := s.node_count
      let c0 ← childNode node 0
      let s ← processNode fuel c0 s
      let body_end := s.last_node
      let (cond_id, s) := newNodeId s
      let c1 ← childElem node 1
      let cond_label ← exprToStr fuel c1
      let s := addNode s cond_id ("while (" ++ cond_label ++ ")") "diamond"
      let s ← addEdgeFrom s body_end cond_id none
      let body_entry := before_body + 1
      let s := addEdge s cond_id body_entry (some "true")
      let (merge_id, s) := mkInvisibleMerge s
      let s := addEdge s cond_id merge_id (some "false")
      .ok (setLast s (some merge_id))
    -- 7) 'type' and 'main' are structural only
    else if node.type = "type" ∨ node.type = "main" then
      .ok s
    -- 8) fallback: recurse on children
    else
      processChildren fuel node.children s

/-- The `for child in children: if child: process(child)` loops. -/
def processChildren (fuel : Nat) (l : List (Option ASTNode)) (s : FC) :
    Except String FC :=
  match fuel with
  | 0 => .error "recursion limit exceeded"
  | fuel + 1 =>
    match l with
    | [] => .ok s
    | none :: rest => processChildren fuel rest s
    | some c :: rest => do
      let s ← processNode fuel c s
      processChildren fuel rest s

end

/-- `FlowchartGenerator.generate`: Start oval, walk the AST, End oval. -/
def generate (fuel : Nat) (ast : ASTNode) : Except String FC := do
  let s : FC := ⟨0, none, [], [], []⟩
  let (start_id, s) := newNodeId s
  let s := addNode s start_id "Start" "oval"
  let s := setLast s (some start_id)
  let s ← processNode fuel ast s
  let (end_id, s) := newNodeId s
  let s := addNode s end_id "End" "oval"
  let s := match s.last_node with
    | some l => addEdge s l end_id none
    | none => s
  .ok s

/-! ## End-to-end pipelines -/

/-- text → tokens → AST → diagnostics. -/
def analyzeSource (fuel : Nat) (code : String) : Except String (List String) := do
  let ts ← lexer code
  let (ast, _) ← parse ts fuel
  let st ← analyze fuel ast ⟨[], []⟩
  .ok st.errors

/-- text → tokens → AST → flowchart graph. -/
def flowchartSource (fuel : Nat) (code : String) : Except String FC := do
  let ts ← lexer code
  let (ast, _) ← parse ts fuel
  generate fuel ast

/-! ## Concrete programs referenced by the claims -/

def srcIfNoElse : String := "int main() \x7b if (x < 1) x = 1; \x7d"

def toksIfNoElse : List Token :=
  [⟨"INT", "int"⟩, ⟨"MAIN", "main"⟩, ⟨"LPAREN", "("⟩, ⟨"RPAREN", ")"⟩,
   ⟨"LBRACE", "\x7b"⟩, ⟨"IF", "if"⟩, ⟨"LPAREN", "("⟩, ⟨"ID", "x"⟩,
   ⟨"OP", "<"⟩, ⟨"NUM", "1"⟩, ⟨"RPAREN", ")"⟩, ⟨"ID", "x"⟩, ⟨"OP", "="⟩,
   ⟨"NUM", "1"⟩, ⟨"SEMI", ";"⟩, ⟨"RBRACE", "\x7d"⟩]

def astIfNoElse : ASTNode :=
  ASTNode.mk "program" none [some (ASTNode.mk "function" none
    [some (ASTNode.mk "type" (some "int") []),
     some (ASTNode.mk "main" (some "main") []),
     some (ASTNode.mk "compound_stmt" none
       [some (ASTNode.mk "if_stmt" none
         [some (ASTNode.mk "comparison" (some "<")
           [some (ASTNode.mk "id" (some "x") []),
            some (ASTNode.mk "num" (some "1") [])]),
          some (ASTNode.mk "assign" none
            [some (ASTNode.mk "id" (some "x") []),
             some (ASTNode.mk "num" (some "1") [])])])])])]

def srcIfElse : String :=
  "int main() \x7b if (x < 1) \x7b x = 1; \x7d else \x7b x = 2; \x7d \x7d"

def toksIfElse : List Token :=
  [⟨"INT", "int"⟩, ⟨"MAIN", "main"⟩, ⟨"LPAREN", "("⟩, ⟨"RPAREN", ")"⟩,
   ⟨"LBRACE", "\x7b"⟩, ⟨"IF", "if"⟩, ⟨"LPAREN", "("⟩, ⟨"ID", "x"⟩,
   ⟨"OP", "<"⟩, ⟨"NUM", "1"⟩, ⟨"RPAREN", ")"⟩, ⟨"LBRACE", "\x7b"⟩,
   ⟨"ID", "x"⟩, ⟨"OP", "="⟩, ⟨"NUM", "1"⟩, ⟨"SEMI", ";"⟩, ⟨"RBRACE", "\x7d"⟩,
   ⟨"ELSE", "else"⟩, ⟨"LBRACE", "\x7b"⟩, ⟨"ID", "x"⟩, ⟨"OP", "="⟩,
   ⟨"NUM", "2"⟩, ⟨"SEMI", ";"⟩, ⟨"RBRACE", "\x7d"⟩, ⟨"RBRACE", "\x7d"⟩]

def astIfElse : ASTNode :=
  ASTNode.mk "program" none [some (ASTNode.mk "function" none
    [some (ASTNode.mk "type" (some "int") []),
     some (ASTNode.mk "main" (some "main") []),
     some (ASTNode.mk "compound_stmt" none
       [some (ASTNode.mk "if_stmt" none
         [some (ASTNode.mk "comparison" (some "<")
           [some (ASTNode.mk "id" (some "x") []),
            some (ASTNode.mk "num" (some "1") [])]),
          some (ASTNode.mk "compound_stmt" none
            [some (ASTNode.mk "assign" none
              [some (ASTNode.mk "id" (some "x") []),
               some (ASTNode.mk "num" (some "1") [])])]),
          some (ASTNode.mk "compound_stmt" none
            [some (ASTNode.mk "assign" none
              [some (ASTNode.mk "id" (some "x") []),
               some (ASTNode.mk "num" (some "2") [])])])])])])]

def srcDoWhile : String :=
  "int main() \x7b x = 1; do \x7b y = 2; \x7d while (x < 3); \x7d"

def toksDoWhile : List Token :=
  [⟨"INT", "int"⟩, ⟨"MAIN", "main"⟩, ⟨"LPAREN", "("⟩, ⟨"RPAREN", ")"⟩,
   ⟨"LBRACE", "\x7b"⟩, ⟨"ID", "x"⟩, ⟨"OP", "="⟩, ⟨"NUM", "1"⟩, ⟨"SEMI", ";"⟩,
   ⟨"DO", "do"⟩, ⟨"LBRACE", "\x7b"⟩, ⟨"ID", "y"⟩, ⟨"OP", "="⟩, ⟨"NUM", "2"⟩,
   ⟨"SEMI", ";"⟩, ⟨"RBRACE", "\x7d"⟩, ⟨"WHILE", "while"⟩, ⟨"LPAREN", "("⟩,
   ⟨"ID", "x"⟩, ⟨"OP", "<"⟩, ⟨"NUM", "3"⟩, ⟨"RPAREN", ")"⟩, ⟨"SEMI", ";"⟩,
   ⟨"RBRACE", "\x7d"⟩]

def astDoWhile : ASTNode :=
  ASTNode.mk "program" none [some (ASTNode.mk "function" none
    [some (ASTNode.mk "type" (some "int") []),
     some (ASTNode.mk "main" (some "main") []),
     some (ASTNode.mk "compound_stmt" none
       [some (ASTNode.mk "assign" none
         [some (ASTNode.mk "id" (some "x") []),
          some (ASTNode.mk "num" (some "1") [])]),
        some (ASTNode.mk "do_while" none
          [some (ASTNode.mk "compound_stmt" none
            [some (ASTNode.mk "assign" none
              [some (ASTNode.mk "id" (some "y") []),
               some (ASTNode.mk "num" (some "2") [])])]),
           some (ASTNode.mk "comparison" (some "<")
             [some (ASTNode.mk "id" (some "x") []),
              some (ASTNode.mk "num" (some "3") [])])])])])]

def srcSelfInit : String := "int main() \x7b int x = x; return 0; \x7d"

def toksSelfInit : List Token :=
  [⟨"INT", "int"⟩, ⟨"MAIN", "main"⟩, ⟨"LPAREN", "("⟩, ⟨"RPAREN", ")"⟩,
   ⟨"LBRACE", "\x7b"⟩, ⟨"INT", "int"⟩, ⟨"ID", "x"⟩, ⟨"OP", "="⟩,
   ⟨"ID", "x"⟩, ⟨"SEMI", ";"⟩, ⟨"RETURN", "return"⟩, ⟨"NUM", "0"⟩,
   ⟨"SEMI", ";"⟩, ⟨"RBRACE", "\x7d"⟩]

def astSelfInit : ASTNode :=
  ASTNode.mk "program" none [some (ASTNode.mk "function" none
    [some (ASTNode.mk "type" (some "int") []),
     some (ASTNode.mk "main" (some "main") []),
     some (ASTNode.mk "compound_stmt" none
       [some (ASTNode.mk "var_decl" none
         [some (ASTNode.mk "type" (some "int") []),
          some (ASTNode.mk "id" (some "x") []),
          some (ASTNode.mk "id" (some "x") [])]),
        some (ASTNode.mk "return_stmt" none
          [some (ASTNode.mk "num" (some "0") [])])])])]

def srcDupDecl : String := "int main() \x7b int x; int x; \x7d"

def toksDupDecl : List Token :=
  [⟨"INT", "int"⟩, ⟨"MAIN", "main"⟩, ⟨"LPAREN", "("⟩, ⟨"RPAREN", ")"⟩,
   ⟨"LBRACE", "\x7b"⟩, ⟨"INT", "int"⟩, ⟨"ID", "x"⟩, ⟨"SEMI", ";"⟩,
   ⟨"INT", "int"⟩, ⟨"ID", "x"⟩, ⟨"SEMI", ";"⟩, ⟨"RBRACE", "\x7d"⟩]

def astDupDecl : ASTNode :=
  ASTNode.mk "program" none [some (ASTNode.mk "function" none
    [some (ASTNode.mk "type" (some "int") []),
     some (ASTNode.mk "main" (some "main") []),
     some (ASTNode.mk "compound_stmt" none
       [some (ASTNode.mk "var_decl" none
         [some (ASTNode.mk "type" (some "int") []),
          some (ASTNode.mk "id" (some "x") [])]),
        some (ASTNode.mk "var_decl" none
          [some (ASTNode.mk "type" (some "int") []),
           some (ASTNode.mk "id" (some "x") [])])])])]

def srcOpaque : String := "int main() \x7b cin >> x; \x7d"

def toksOpaque : List Token :=
  [⟨"INT", "int"⟩, ⟨"MAIN", "main"⟩, ⟨"LPAREN", "("⟩, ⟨"RPAREN", ")"⟩,
   ⟨"LBRACE", "\x7b"⟩, ⟨"ID", "cin"⟩, ⟨"OP", ">>"⟩, ⟨"ID", "x"⟩,
   ⟨"SEMI", ";"⟩, ⟨"RBRACE", "\x7d"⟩]

def astOpaque : ASTNode :=
  ASTNode.mk "program" none [some (ASTNode.mk "function" none
    [some (ASTNode.mk "type" (some "int") []),
     some (ASTNode.mk "main" (some "main") []),
     some (ASTNode.mk "compound_stmt" none
       [some (ASTNode.mk "stmt" (some "cin >> x ;") [])])])]

def srcWhileEmpty : String := "int main() \x7b while (x < 1) \x7b \x7d \x7d"

def toksWhileEmpty : List Token :=
  [⟨"INT", "int"⟩, ⟨"MAIN", "main"⟩, ⟨"LPAREN", "("⟩, ⟨"RPAREN", ")"⟩,
   ⟨"LBRACE", "\x7b"⟩, ⟨"WHILE", "while"⟩, ⟨"LPAREN", "("⟩, ⟨"ID", "x"⟩,
   ⟨"OP", "<"⟩, ⟨"NUM", "1"⟩, ⟨"RPAREN", ")"⟩, ⟨"LBRACE", "\x7b"⟩,
   ⟨"RBRACE", "\x7d"⟩, ⟨"RBRACE", "\x7d"⟩]

def astWhileEmpty : ASTNode :=
  ASTNode.mk "program" none [some (ASTNode.mk "function" none
    [some (ASTNode.mk "type" (some "int") []),
     some (ASTNode.mk "main" (some "main") []),
     some (ASTNode.mk "compound_stmt" none
       [some (ASTNode.mk "while" none
         [some (ASTNode.mk "comparison" (some "<")
           [some (ASTNode.mk "id" (some "x") []),
            some (ASTNode.mk "num" (some "1") [])]),
          some (ASTNode.mk "compound_stmt" none [])])])])]

/-- `int main() \x7b return 0; \x7d` as a token list (used to study what the
parser does with trailing tokens). -/
def toksReturnMain : List Token :=
  [⟨"INT", "int"⟩, ⟨"MAIN", "main"⟩, ⟨"LPAREN", "("⟩, ⟨"RPAREN", ")"⟩,
   ⟨"LBRACE", "\x7b"⟩, ⟨"RETURN", "return"⟩, ⟨"NUM", "0"⟩, ⟨"SEMI", ";"⟩,
   ⟨"RBRACE", "\x7d"⟩]

def astReturnMain : ASTNode :=
  ASTNode.mk "program" none [some (ASTNode.mk "function" none
    [some (ASTNode.mk "type" (some "int") []),
     some (ASTNode.mk "main" (some "main") []),
     some (ASTNode.mk "compound_stmt" none
       [some (ASTNode.mk "return_stmt" none
         [some (ASTNode.mk "num" (some "0") [])])])])]

/-- The parser's one-token lookahead at a statement head (the
`next_tok` of `stmt`). -/
def lookahead (ts : List Token) (pos : Nat) : Token :=
  match ts.get? (pos + 1) with
  | some t => t
  | none => ⟨"EOF", ""⟩

/-- The payload the specification prescribes for a generic statement:
the literal text of all tokens from position `pos` through the
terminating semicolon at position `k` (inclusive), joined and stripped. -/
def genericPayload (ts : List Token) (pos k : Nat) : String :=
  pyStrip (String.intercalate " " (((ts.drop pos).take (k + 1 - pos)).map Token.value))

/-- A nonempty identifier-shaped character sequence:
`[A-Za-z_][A-Za-z0-9_]*`. -/
def isIdentChars (l : List Char) : Bool :=
  match l with
  | [] => false
  | c :: cs => (c.isAlpha || c == '_') && cs.all isWordChar

/-! ## Flowchart builder invariant -/

/-- The builder invariant: the running state always has a positive node
counter, exactly one oval node (the Start node, id 1), edges that never
target node 1 and never leave a node beyond the counter, and a cursor
within range. -/
def Inv (s : FC) : Prop :=
  1 ≤ s.node_count ∧
  s.nodes.filter (fun n => n.shape == "oval") = [⟨1, "Start", "oval"⟩] ∧
  (∀ e ∈ s.edges, 2 ≤ e.dst ∧ e.src ≤ s.node_count) ∧
  (∀ p, s.last_node = some p → p ≤ s.node_count)

/-- The do-while example graph produced by `generate`, used as a concrete
witness for the Start/End uniqueness property. -/
def gDoWhile : FC :=
  ⟨6, some 5, [],
   [⟨1, "Start", "oval"⟩, ⟨2, "x = 1", "box"⟩, ⟨3, "y = 2", "box"⟩,
    ⟨4, "while (x < 3)", "diamond"⟩, ⟨5, "", "point"⟩, ⟨6, "End", "oval"⟩],
   [⟨1, 2, none⟩, ⟨2, 3, none⟩, ⟨3, 4, none⟩, ⟨4, 3, some "true"⟩,
    ⟨4, 5, some "false"⟩, ⟨5, 6, none⟩]⟩

/-! ## Theorems -/

/-- Binding a successful `Except` computation just applies the
continuation. -/
theorem exBind_ok {α β : Type} (x : α) (f : α → Except String β) :
    (Except.ok x >>= f : Except String β) = f x := rfl

/-- C1: the spec claims every decision diamond has exactly two outgoing
edges ("true"/"false"), and that an else-less if wires its false edge to
the then-branch's join node.  In the code the else-less branch draws the
false edge through the undefined name `mergerId`, so building the
flowchart of `int main() \x7b if (x < 1) x = 1; \x7d` raises NameError and
no graph is produced; moreover, for an if with an else the decision
diamond of `int main() \x7b if (x < 1) \x7b x = 1; \x7d else \x7b x = 2; \x7d \x7d`
(node 2) has four outgoing edges, not two: the labeled true/false pair
plus the unlabeled predecessor edges drawn when each branch entry box was
created with the cursor still on the diamond. -/
theorem if_diamond_false_edge_faults :
    flowchartSource 30 srcIfNoElse =
      .error "NameError: name \x27mergerId\x27 is not defined" ∧
    (flowchartSource 30 srcIfElse).map
      (fun g => (g.edges.filter (fun e => e.src == 2)).length) = .ok 4 := by
  constructor
  · have h1 : lexer srcIfNoElse = .ok toksIfNoElse := rfl
    have h2 : parse toksIfNoElse 30 = .ok (astIfNoElse, 16) := rfl
    have h3 : generate 30 astIfNoElse =
        .error "NameError: name \x27mergerId\x27 is not defined" := rfl
    simp [flowchartSource, h1, h2, h3, exBind_ok]
  · have h1 : lexer srcIfElse = .ok toksIfElse := rfl
    have h2 : parse toksIfElse 30 = .ok (astIfElse, 25) := rfl
    have h3 : generate 30 astIfElse = .ok ⟨6, some 5, [5],
        [⟨1, "Start", "oval"⟩, ⟨2, "if (x < 1)", "diamond"⟩,
         ⟨3, "x = 1", "box"⟩, ⟨4, "x = 2", "box"⟩, ⟨5, "", "point"⟩,
         ⟨6, "End", "oval"⟩],
        [⟨1, 2, none⟩, ⟨2, 3, none⟩, ⟨2, 4, none⟩, ⟨3, 5, none⟩,
         ⟨4, 5, none⟩, ⟨2, 3, some "true"⟩, ⟨2, 4, some "false"⟩,
         ⟨5, 6, none⟩]⟩ := rfl
    simp [flowchartSource, h1, h2, h3, exBind_ok]
    rfl

/-- C2 (counterexample): the claim says no predecessor edge is drawn from
the node before a do-while into the body's entry.  For
`int main() \x7b x = 1; do \x7b y = 2; \x7d while (x < 3); \x7d` the
produced graph contains the unlabeled edge 2 → 3 from the `x = 1` box
(node 2) into the body-entry box `y = 2` (node 3), because the cursor is
not cleared before the body walk. -/
theorem do_while_predecessor_edge_cex :
    flowchartSource 30 srcDoWhile = .ok ⟨6, some 5, [],
      [⟨1, "Start", "oval"⟩, ⟨2, "x = 1", "box"⟩, ⟨3, "y = 2", "box"⟩,
       ⟨4, "while (x < 3)", "diamond"⟩, ⟨5, "", "point"⟩, ⟨6, "End", "oval"⟩],
      [⟨1, 2, none⟩, ⟨2, 3, none⟩, ⟨3, 4, none⟩, ⟨4, 3, some "true"⟩,
       ⟨4, 5, some "false"⟩, ⟨5, 6, none⟩]⟩ ∧
    (GEdge.mk 2 3 none) ∈
      [GEdge.mk 1 2 none, ⟨2, 3, none⟩, ⟨3, 4, none⟩, ⟨4, 3, some "true"⟩,
       ⟨4, 5, some "false"⟩, ⟨5, 6, none⟩] := by
  constructor
  · have h1 : lexer srcDoWhile = .ok toksDoWhile := rfl
    have h2 : parse toksDoWhile 30 = .ok (astDoWhile, 24) := rfl
    have h3 : generate 30 astDoWhile = .ok ⟨6, some 5, [],
        [⟨1, "Start", "oval"⟩, ⟨2, "x = 1", "box"⟩, ⟨3, "y = 2", "box"⟩,
         ⟨4, "while (x < 3)", "diamond"⟩, ⟨5, "", "point"⟩, ⟨6, "End", "oval"⟩],
        [⟨1, 2, none⟩, ⟨2, 3, none⟩, ⟨3, 4, none⟩, ⟨4, 3, some "true"⟩,
         ⟨4, 5, some "false"⟩, ⟨5, 6, none⟩]⟩ := rfl
    simp [flowchartSource, h1, h2, h3, exBind_ok]
  · simp

/-- C2 (amended): for a do-while whose body is a compound statement with
one assignment, the body is walked first, and because the cursor is not
cleared, the node before the do-while is wired by an ordinary unlabeled
edge into the body's entry (the first node allocated during the body
walk); the condition diamond is then edged from the body's exit, its
true-labeled edge goes back to the body's entry, and its false edge goes
to a fresh join point which becomes the cursor. -/
theorem do_while_wiring :
    ∀ (f : Nat) (u w z : String) (s : FC) (p : Nat),
    s.last_node = some p →
    processNode (f + 6) (ASTNode.mk "do_while" none
      [some (ASTNode.mk "compound_stmt" none
        [some (ASTNode.mk "assign" none
          [some (ASTNode.mk "id" (some u) []),
           some (ASTNode.mk "num" (some w) [])])]),
       some (ASTNode.mk "id" (some z) [])]) s =
    .ok ⟨s.node_count + 3, some (s.node_count + 3), s.merge_stack,
      s.nodes ++ [⟨s.node_count + 1, u ++ " = " ++ w, "box"⟩,
                  ⟨s.node_count + 2, "while (" ++ z ++ ")", "diamond"⟩,
                  ⟨s.node_count + 3, "", "point"⟩],
      s.edges ++ [⟨p, s.node_count + 1, none⟩,
                  ⟨s.node_count + 1, s.node_count + 2, none⟩,
                  ⟨s.node_count + 2, s.node_count + 1, some "true"⟩,
                  ⟨s.node_count + 2, s.node_count + 3, some "false"⟩]⟩ := by
  intro f u w z s p h
  obtain ⟨n, last, ms, nds, eds⟩ := s
  simp only [FC.last_node] at h
  subst h
  have step : processNode (f + 6) (ASTNode.mk "do_while" none
      [some (ASTNode.mk "compound_stmt" none
        [some (ASTNode.mk "assign" none
          [some (ASTNode.mk "id" (some u) []),
           some (ASTNode.mk "num" (some w) [])])]),
       some (ASTNode.mk "id" (some z) [])])
      ⟨n, some p, ms, nds, eds⟩ =
    .ok ⟨n + 3, some (n + 3), ms,
      ((nds ++ [⟨n + 1, u ++ " = " ++ w, "box"⟩]) ++
        [⟨n + 2, "while (" ++ z ++ ")", "diamond"⟩]) ++ [⟨n + 3, "", "point"⟩],
      (((eds ++ [⟨p, n + 1, none⟩]) ++ [⟨n + 1, n + 2, none⟩]) ++
        [⟨n + 2, n + 1, some "true"⟩]) ++ [⟨n + 2, n + 3, some "false"⟩]⟩ := rfl
  rw [step]
  simp [List.append_assoc]

/-- Witness for `do_while_wiring` at a concrete state with the cursor on
node 2. -/
theorem do_while_wiring_witness :
    processNode 6 (ASTNode.mk "do_while" none
      [some (ASTNode.mk "compound_stmt" none
        [some (ASTNode.mk "assign" none
          [some (ASTNode.mk "id" (some "y") []),
           some (ASTNode.mk "num" (some "2") [])])]),
       some (ASTNode.mk "id" (some "x") [])])
      ⟨2, some 2, [], [], []⟩ =
    .ok ⟨5, some 5, [],
      [⟨3, "y = 2", "box"⟩, ⟨4, "while (x)", "diamond"⟩, ⟨5, "", "point"⟩],
      [⟨2, 3, none⟩, ⟨3, 4, none⟩, ⟨4, 3, some "true"⟩,
       ⟨4, 5, some "false"⟩]⟩ :=
  do_while_wiring 0 "y" "2" "x" ⟨2, some 2, [], [], []⟩ 2 rfl

/-- C3: `visit_var_decl` inserts the declared name into the symbol set
before analyzing the initializer, so a declaration whose initializer
mentions the declared name itself produces no diagnostic; consequently
`int main() \x7b int x = x; return 0; \x7d` analyzes to an empty
diagnostic list. -/
theorem var_decl_inserts_name_before_initializer :
    (∀ (f : Nat) (v : String) (st : SemState),
      (some v) ∉ st.symbols →
      analyze (f + 2) (ASTNode.mk "var_decl" none
        [some (ASTNode.mk "type" (some "int") []),
         some (ASTNode.mk "id" (some v) []),
         some (ASTNode.mk "id" (some v) [])]) st =
      .ok ⟨st.symbols ++ [some v], st.errors⟩) ∧
    analyzeSource 30 srcSelfInit = .ok [] := by
  constructor
  · intro f v st h
    simp [analyze, childNode, ASTNode.type, ASTNode.value, ASTNode.children,
      exBind_ok, h]
  · have h1 : lexer srcSelfInit = .ok toksSelfInit := rfl
    have h2 : parse toksSelfInit 30 = .ok (astSelfInit, 14) := rfl
    have h3 : analyze 30 astSelfInit ⟨[], []⟩ = .ok ⟨[some "x"], []⟩ := rfl
    simp [analyzeSource, h1, h2, h3, exBind_ok]

/-- Witness for `var_decl_inserts_name_before_initializer` on the empty
symbol set with name `x`. -/
theorem var_decl_inserts_name_before_initializer_witness :
    analyze 2 (ASTNode.mk "var_decl" none
      [some (ASTNode.mk "type" (some "int") []),
       some (ASTNode.mk "id" (some "x") []),
       some (ASTNode.mk "id" (some "x") [])]) ⟨[], []⟩ =
    .ok ⟨[some "x"], []⟩ :=
  var_decl_inserts_name_before_initializer.1 0 "x" ⟨[], []⟩ (by simp)

/-- C4: re-declaring a name already in the symbol set appends exactly one
"already declared" diagnostic and leaves the symbol set unchanged;
consequently `int main() \x7b int x; int x; \x7d` analyzes to exactly
that one diagnostic and no others. -/
theorem duplicate_declaration_single_diagnostic :
    (∀ (f : Nat) (v : String) (st : SemState),
      (some v) ∈ st.symbols →
      analyze (f + 1) (ASTNode.mk "var_decl" none
        [some (ASTNode.mk "type" (some "int") []),
         some (ASTNode.mk "id" (some v) [])]) st =
      .ok ⟨st.symbols, st.errors ++
        ["Semantic Error: Variable \x27" ++ v ++ "\x27 already declared"]⟩) ∧
    analyzeSource 30 srcDupDecl =
      .ok ["Semantic Error: Variable \x27x\x27 already declared"] := by
  constructor
  · intro f v st h
    simp [analyze, childNode, ASTNode.type, ASTNode.value, ASTNode.children,
      exBind_ok, h, optStr]
  · have h1 : lexer srcDupDecl = .ok toksDupDecl := rfl
    have h2 : parse toksDupDecl 30 = .ok (astDupDecl, 12) := rfl
    have h3 : analyze 30 astDupDecl ⟨[], []⟩ = .ok ⟨[some "x"],
        ["Semantic Error: Variable \x27x\x27 already declared"]⟩ := rfl
    simp [analyzeSource, h1, h2, h3, exBind_ok]

/-- Witness for `duplicate_declaration_single_diagnostic` with `x` already
declared. -/
theorem duplicate_declaration_single_diagnostic_witness :
    analyze 1 (ASTNode.mk "var_decl" none
      [some (ASTNode.mk "type" (some "int") []),
       some (ASTNode.mk "id" (some "x") [])]) ⟨[some "x"], []⟩ =
    .ok ⟨[some "x"], ["Semantic Error: Variable \x27x\x27 already declared"]⟩ :=
  duplicate_declaration_single_diagnostic.1 0 "x" ⟨[some "x"], []⟩ (by simp)

/-- C10: a generic opaque statement node carries only raw text and no
children, and the analyzer dispatches it to the generic visitor, which
does nothing; consequently `int main() \x7b cin >> x; \x7d` — whose only
use of the undeclared `x` is inside the opaque statement — analyzes to an
empty diagnostic list. -/
theorem opaque_statement_not_checked :
    (∀ (f : Nat) (txt : String) (st : SemState),
      analyze (f + 2) (ASTNode.mk "stmt" (some txt) []) st = .ok st) ∧
    analyzeSource 30 srcOpaque = .ok [] := by
  constructor
  · intro f txt st
    simp [analyze, genericChildren, ASTNode.type, ASTNode.children]
  · have h1 : lexer srcOpaque = .ok toksOpaque := rfl
    have h2 : parse toksOpaque 30 = .ok (astOpaque, 10) := rfl
    have h3 : analyze 30 astOpaque ⟨[], []⟩ = .ok ⟨[], []⟩ := rfl
    simp [analyzeSource, h1, h2, h3, exBind_ok]

/-- C9: a while or for statement with an empty compound body allocates no
node during the body walk, so the cursor (cleared before the walk) is
still `None` when the back edge from body-exit is drawn, and the builder
faults instead of producing a graph; end to end,
`int main() \x7b while (x < 1) \x7b \x7d \x7d` faults. -/
theorem empty_loop_body_faults :
    (∀ (f : Nat) (v : String) (s : FC),
      processNode (f + 3) (ASTNode.mk "while" none
        [some (ASTNode.mk "id" (some v) []),
         some (ASTNode.mk "compound_stmt" none [])]) s =
        .error "TypeError: edge endpoint is None" ∧
      processNode (f + 3) (ASTNode.mk "for" none
        [none, none, none, some (ASTNode.mk "compound_stmt" none [])]) s =
        .error "TypeError: edge endpoint is None") ∧
    flowchartSource 30 srcWhileEmpty = .error "TypeError: edge endpoint is None" := by
  constructor
  · intro f v s
    obtain ⟨n, last, ms, nds, eds⟩ := s
    cases last <;> exact ⟨rfl, rfl⟩
  · have h1 : lexer srcWhileEmpty = .ok toksWhileEmpty := rfl
    have h2 : parse toksWhileEmpty 30 = .ok (astWhileEmpty, 14) := rfl
    have h3 : generate 30 astWhileEmpty =
        .error "TypeError: edge endpoint is None" := rfl
    simp [flowchartSource, h1, h2, h3, exBind_ok]

/-- `currentTok` at an in-range position is the stored token. -/
theorem currentTok_of_get {ts : List Token} {pos : Nat} {t : Token}
    (h : ts.get? pos = some t) : currentTok ts pos = t := by
  simp only [currentTok, h]

/-- The generic-statement gathering loop of `stmt` collects the literal
texts of the tokens from `pos` through the first semicolon at `k`
(inclusive, consumed), provided no earlier position holds a SEMI (or a
literal "EOF"-typed token). -/
theorem gatherGeneric_collects :
    ∀ (ts : List Token) (k fuel pos : Nat) (acc : List String),
      pos ≤ k → (currentTok ts k).type = "SEMI" →
      (∀ j, pos ≤ j → j < k →
        (currentTok ts j).type ≠ "SEMI" ∧ (currentTok ts j).type ≠ "EOF") →
      k - pos < fuel →
      gatherGeneric ts fuel pos acc =
        .ok (acc ++ ((ts.drop pos).take (k + 1 - pos)).map Token.value, k + 1) := by
  intro ts k fuel
  induction fuel with
  | zero => intro pos acc h1 _ _ h4; omega
  | succ f ih =>
    intro pos acc h1 h2 h3 h4
    have hk : k < ts.length := by
      by_contra hnk
      have hnone : ts.get? k = none := List.get?_eq_none.mpr (by omega)
      rw [currentTok, hnone] at h2
      simp at h2
    rcases eq_or_lt_of_le h1 with rfl | hlt
    · have hget : ts.get? pos = some ts[pos] := by
        rw [List.get?_eq_getElem?]
        exact List.getElem?_eq_getElem hk
      have hcur : currentTok ts pos = ts[pos] := currentTok_of_get hget
      have hdrop : ts.drop pos = ts[pos] :: ts.drop (pos + 1) := List.drop_eq_getElem_cons hk
      have htake : (ts.drop pos).take (pos + 1 - pos) = [ts[pos]] := by
        rw [hdrop]
        have h11 : pos + 1 - pos = 1 := by omega
        rw [h11]
        rfl
      rw [gatherGeneric, hcur]
      rw [hcur] at h2
      simp only [h2, htake]
      simp
    · have hpos : pos < ts.length := by omega
      have hget : ts.get? pos = some ts[pos] := by
        rw [List.get?_eq_getElem?]
        exact List.getElem?_eq_getElem hpos
      have hcur : currentTok ts pos = ts[pos] := currentTok_of_get hget
      obtain ⟨hne1, hne2⟩ := h3 pos (le_refl pos) hlt
      have hrec := ih (pos + 1) (acc ++ [(currentTok ts pos).value])
        (by omega) h2 (fun j hj1 hj2 => h3 j (by omega) hj2) (by omega)
      rw [gatherGeneric]
      simp only [hne1, hne2, ne_eq, not_false_eq_true, and_self, if_pos, ite_true]
      rw [hrec]
      have hdrop : ts.drop pos = ts[pos] :: ts.drop (pos + 1) := List.drop_eq_getElem_cons hpos
      have hsucc : k + 1 - pos = (k + 1 - (pos + 1)) + 1 := by omega
      rw [hdrop, hsucc, List.take_succ_cons, hcur]
      simp only [List.map_cons, List.append_assoc, List.singleton_append]

/-- C5: at a statement position whose first token is an identifier, the
parser looks exactly one token ahead: if the next token is the `=`
operator it parses an assignment statement, otherwise it produces a
generic statement node whose payload is the joined literal text of all
tokens from the identifier through the next semicolon (inclusive). -/
theorem stmt_ident_lookahead :
    ∀ (ts : List Token) (fuel pos : Nat),
      (currentTok ts pos).type = "ID" →
      ((lookahead ts pos).type = "OP" ∧ (lookahead ts pos).value = "=" →
        stmt ts (fuel + 1) pos = assign_stmt ts fuel pos) ∧
      (¬((lookahead ts pos).type = "OP" ∧ (lookahead ts pos).value = "=") →
        ∀ k, pos ≤ k → (currentTok ts k).type = "SEMI" →
          (∀ j, pos ≤ j → j < k →
            (currentTok ts j).type ≠ "SEMI" ∧ (currentTok ts j).type ≠ "EOF") →
          k - pos < fuel →
          stmt ts (fuel + 1) pos =
            .ok (ASTNode.mk "stmt" (some (genericPayload ts pos k)) [], k + 1)) := by
  intro ts fuel pos h
  constructor
  · intro ⟨h1, h2⟩
    rw [stmt, h]
    simp only [reduceIte]
    rw [show (match ts.get? (pos + 1) with
        | some t => t
        | none => ⟨"EOF", ""⟩) = lookahead ts pos from rfl]
    simp [h1, h2]
  · intro hneg k hk1 hk2 hk3 hk4
    rw [stmt, h]
    simp only [reduceIte]
    rw [show (match ts.get? (pos + 1) with
        | some t => t
        | none => ⟨"EOF", ""⟩) = lookahead ts pos from rfl]
    rw [if_neg hneg]
    rw [gatherGeneric_collects ts k fuel pos [] hk1 hk2 hk3 hk4]
    simp [genericPayload, exBind_ok]

/-- Witness for `stmt_ident_lookahead`: the statement `cin >> x ;` inside
`toksOpaque` (identifier head at position 5, `>>` lookahead, semicolon at
position 8) becomes a generic node with payload "cin >> x ;". -/
theorem stmt_ident_lookahead_witness :
    stmt toksOpaque 10 5 = .ok (ASTNode.mk "stmt" (some "cin >> x ;") [], 9) :=
  (stmt_ident_lookahead toksOpaque 9 5 rfl).2 (by decide) 8 (by decide) rfl
    (by intro j h1 h2; interval_cases j <;> exact ⟨by decide, by decide⟩)
    (by decide)

/-- `dropLit` succeeds exactly on inputs extending the literal. -/
theorem dropLit_some : ∀ (ks l rest : List Char),
    dropLit ks l = some rest → l = ks ++ rest := by
  intro ks
  induction ks with
  | nil => intro l rest h; simp [dropLit] at h; simp [h]
  | cons k ks ih =>
    intro l rest h
    cases l with
    | nil => simp [dropLit] at h
    | cons c cs =>
      rw [dropLit] at h
      split_ifs at h with hc
      · subst hc
        simp [ih cs rest h]

/-- A keyword pattern `\bKW\b` never fires inside an identifier-shaped
character run that is not the keyword itself: either the run does not
start with the keyword, or the word-boundary check after it fails. -/
theorem matchKw_none_of_ident (kw : String) (l : List Char)
    (hall : ∀ x ∈ l, isWordChar x = true) (hne : l ≠ kw.data) :
    matchKw kw false l = none := by
  rw [matchKw]
  simp only [if_false, Bool.false_eq_true, reduceIte]
  cases hdrop : dropLit kw.data l with
  | none => rfl
  | some rest =>
    have hl := dropLit_some kw.data l rest hdrop
    cases rest with
    | nil => simp at hl; exact absurd hl (by simpa using hne)
    | cons r rs =>
      have hr : isWordChar r = true := hall r (by rw [hl]; simp)
      simp [hr]

/-- At a word boundary (the previous character is not a word character
and the character after the keyword, if any, is not a word character),
each keyword is scanned as its own token kind. -/
theorem kwStep : ∀ (pos : Nat) (kind kw : String) (rest : List Char),
    (kind, kw) ∈ kwSpecs →
    (∀ c, rest.head? = some c → isWordChar c = false) →
    lexStep pos false (kw.data ++ rest) = .ok (some ⟨kind, kw⟩, rest, true) := by
  intro pos kind kw rest hmem hb
  fin_cases hmem <;>
    cases rest with
    | nil => rfl
    | cons c cs =>
      have hc : isWordChar c = false := hb c rfl
      simp [lexStep, matchKw, dropLit, hc]

/-- An identifier-shaped run that is not itself a keyword is lexed as a
single IDENT token covering the whole run. -/
theorem identLex : ∀ l, isIdentChars l = true →
    (∀ p ∈ kwSpecs, l ≠ (p.2 : String).data) →
    lexer (String.mk l) = .ok [⟨"ID", String.mk l⟩] := by
  intro l hid hkw
  cases l with
  | nil => simp [isIdentChars] at hid
  | cons c cs =>
    rw [isIdentChars] at hid
    have hparts := Bool.and_eq_true _ _ |>.mp hid
    have hfirst : (c.isAlpha || c == '_') = true := hparts.1
    have hallcs : ∀ x ∈ cs, isWordChar x = true := by
      intro x hx
      exact List.all_eq_true.mp hparts.2 x hx
    have hcw : isWordChar c = true := by
      rw [isWordChar]
      cases hA : c.isAlpha <;> cases hU : (c == '_') <;>
        simp [hA, hU] at hfirst ⊢
    have hall : ∀ x ∈ c :: cs, isWordChar x = true := by
      intro x hx
      rcases List.mem_cons.mp hx with rfl | hx2
      · exact hcw
      · exact hallcs x hx2
    have h1 := matchKw_none_of_ident "int" (c :: cs) hall (hkw ("INT", "int") (by simp [kwSpecs]))
    have h2 := matchKw_none_of_ident "main" (c :: cs) hall (hkw ("MAIN", "main") (by simp [kwSpecs]))
    have h3 := matchKw_none_of_ident "if" (c :: cs) hall (hkw ("IF", "if") (by simp [kwSpecs]))
    have h4 := matchKw_none_of_ident "else" (c :: cs) hall (hkw ("ELSE", "else") (by simp [kwSpecs]))
    have h5 := matchKw_none_of_ident "while" (c :: cs) hall (hkw ("WHILE", "while") (by simp [kwSpecs]))
    have h6 := matchKw_none_of_ident "for" (c :: cs) hall (hkw ("FOR", "for") (by simp [kwSpecs]))
    have h7 := matchKw_none_of_ident "do" (c :: cs) hall (hkw ("DO", "do") (by simp [kwSpecs]))
    have h8 := matchKw_none_of_ident "return" (c :: cs) hall (hkw ("RETURN", "return") (by simp [kwSpecs]))
    have htw : cs.takeWhile isWordChar = cs :=
      List.takeWhile_eq_self_iff.mpr (fun x hx => by rw [hallcs x hx])
    have hdw : cs.dropWhile isWordChar = [] :=
      List.dropWhile_eq_nil_iff.mpr (fun x hx => by rw [hallcs x hx])
    have hstep : lexStep 0 false (c :: cs) =
        .ok (some ⟨"ID", String.mk (c :: cs)⟩, [], true) := by
      rw [lexStep, h1, h2, h3, h4, h5, h6, h7, h8]
      simp [hfirst, htw, hdw]
    show lexLoop ((c :: cs).length + 1) 0 false (c :: cs) [] =
      .ok [⟨"ID", String.mk (c :: cs)⟩]
    rw [lexLoop, hstep]
    all_goals simp [lexLoop]

/-- C6: each of the eight keywords occurring at a word boundary is
scanned as its own keyword token kind (never as an identifier), while an
identifier-shaped run that merely contains or extends a keyword (e.g.
`integer`, `mainly`, `ifx`) is produced as one single IDENT token,
because the keyword patterns are anchored to word boundaries and tried
before the general identifier pattern. -/
theorem keywords_at_word_boundaries :
    (∀ (pos : Nat) (kind kw : String) (rest : List Char),
      (kind, kw) ∈ kwSpecs →
      (∀ c, rest.head? = some c → isWordChar c = false) →
      lexStep pos false (kw.data ++ rest) = .ok (some ⟨kind, kw⟩, rest, true)) ∧
    (∀ l, isIdentChars l = true →
      (∀ p ∈ kwSpecs, l ≠ (p.2 : String).data) →
      lexer (String.mk l) = .ok [⟨"ID", String.mk l⟩]) :=
  ⟨kwStep, identLex⟩

/-- Witness for `keywords_at_word_boundaries`: the keyword `while`
followed by a blank is scanned as WHILE, and the identifier `integer`
(which contains the keyword `int`) is scanned as one IDENT. -/
theorem keywords_at_word_boundaries_witness :
    lexStep 0 false ("while".data ++ [' ']) =
      .ok (some ⟨"WHILE", "while"⟩, [' '], true) ∧
    lexer (String.mk "integer".data) =
      .ok [⟨"ID", String.mk "integer".data⟩] :=
  ⟨keywords_at_word_boundaries.1 0 "WHILE" "while" [' '] (by decide)
      (by intro c hc; injection hc with h; rw [← h]; rfl),
   keywords_at_word_boundaries.2 "integer".data (by decide) (by decide)⟩

/-- C8: `parse` returns as soon as one complete function has been
consumed and never checks that the end of the input was reached, so any
suffix appended after the function's closing brace — for instance the
tokens of a second function — is silently ignored and the same
single-function AST is returned. -/
theorem parse_ignores_trailing_tokens :
    ∀ extra : List Token,
      parse (toksReturnMain ++ extra) 30 = .ok (astReturnMain, 9) := by
  intro extra
  rfl


/-! ## Invariant preservation and the Start/End property -/

theorem Inv.count_pos {s : FC} (h : Inv s) : 1 ≤ s.node_count := h.1

/-- Extending an invariant state with non-oval nodes and in-range edges
keeps the invariant. -/
theorem inv_ext {s : FC} (h : Inv s) (cnt' : Nat) (last' : Option Nat)
    (ms' : List Nat) (extraN : List GNode) (extraE : List GEdge)
    (nds' : List GNode) (eds' : List GEdge)
    (hnds : nds' = s.nodes ++ extraN)
    (heds : eds' = s.edges ++ extraE)
    (hc : s.node_count ≤ cnt')
    (hn : ∀ n ∈ extraN, (n.shape == "oval") = false)
    (he : ∀ e ∈ extraE, 2 ≤ e.dst ∧ e.src ≤ cnt')
    (hl : ∀ p, last' = some p → p ≤ cnt') :
    Inv ⟨cnt', last', ms', nds', eds'⟩ := by
  obtain ⟨h1, h2, h3, h4⟩ := h
  refine ⟨show 1 ≤ cnt' by omega, ?_, ?_, hl⟩
  · show List.filter _ nds' = _
    rw [hnds, List.filter_append, h2]
    have hzero : extraN.filter (fun n => n.shape == "oval") = [] := by
      rw [List.filter_eq_nil_iff]
      intro a ha
      simp [hn a ha]
    rw [hzero]
    rfl
  · show ∀ e ∈ eds', 2 ≤ e.dst ∧ e.src ≤ cnt'
    intro e he'
    rw [heds] at he'
    rcases List.mem_append.mp he' with h' | h'
    · obtain ⟨hd, hs⟩ := h3 e h'
      exact ⟨hd, by omega⟩
    · exact he e h'

theorem filter_shape_label (l : List GNode) (sh lb : String) :
    l.filter (fun n => n.shape == sh && n.label == lb) =
      (l.filter (fun n => n.shape == sh)).filter (fun n => n.label == lb) := by
  induction l with
  | nil => rfl
  | cons a t ih =>
    simp only [List.filter_cons]
    cases hs : (a.shape == sh) <;> cases hl : (a.label == lb) <;>
      simp [hs, hl, ih]

/-- Master lemma: one step of the builder preserves the invariant and
never decreases the node counter. -/
theorem processNode_inv : ∀ fuel,
    (∀ node s s', processNode fuel node s = .ok s' → Inv s →
      Inv s' ∧ s.node_count ≤ s'.node_count) ∧
    (∀ l s s', processChildren fuel l s = .ok s' → Inv s →
      Inv s' ∧ s.node_count ≤ s'.node_count) := by
  intro fuel
  induction fuel with
  | zero =>
    constructor
    · intro node s s' h
      rw [processNode] at h
      exact absurd h (by simp)
    · intro l s s' h
      rw [processChildren] at h
      exact absurd h (by simp)
  | succ f ih =>
    obtain ⟨ihN, ihC⟩ := ih
    constructor
    · intro node s s' h hInv
      rw [processNode] at h
      split_ifs at h with t1 t2 t3 t4 t5 t6 t7
      · exact ihC node.children s s' h hInv
      · -- box nodes
        cases hf : formatter f node with
        | error e =>
          rw [show (newNodeId s) = (s.node_count + 1, {s with node_count := s.node_count + 1}) from rfl] at h
          rw [hf] at h
          simp [bind, Except.bind] at h
        | ok label =>
          rw [show (newNodeId s) = (s.node_count + 1, {s with node_count := s.node_count + 1}) from rfl] at h
          rw [hf] at h
          cases hl : s.last_node with
          | none =>
            simp only [bind, Except.bind, addNode, setLast, hl, Except.ok.injEq] at h
            subst h
            constructor
            · exact inv_ext hInv _ _ _ [⟨s.node_count + 1, label, "box"⟩] [] _ _
                rfl (by simp) (by omega) (by simp) (by simp)
                (by intro p hp; injection hp with hp; omega)
            · simp
          | some lst =>
            have hlle : lst ≤ s.node_count := hInv.2.2.2 lst hl
            simp only [bind, Except.bind, addNode, setLast, addEdge, hl, Except.ok.injEq] at h
            subst h
            constructor
            · exact inv_ext hInv _ _ _ [⟨s.node_count + 1, label, "box"⟩]
                [⟨lst, s.node_count + 1, none⟩] _ _
                rfl rfl (by omega) (by simp)
                (by intro e he; rw [List.mem_singleton] at he; subst he
                    refine ⟨show 2 ≤ s.node_count + 1 from ?_, show lst ≤ s.node_count + 1 from ?_⟩
                    · have := hInv.count_pos; omega
                    · omega)
                (by intro p hp; injection hp with hp; omega)
            · simp
      · -- if_stmt with else
        cases hf : formatter f node with
        | error e =>
          rw [show (newNodeId s) = (s.node_count + 1, {s with node_count := s.node_count + 1}) from rfl] at h
          rw [hf] at h
          simp [bind, Except.bind] at h
        | ok lbl =>
        rw [show (newNodeId s) = (s.node_count + 1, {s with node_count := s.node_count + 1}) from rfl] at h
        rw [hf] at h
        cases hc1 : childNode node 1 with
        | error e =>
          rw [hc1] at h
          cases hl : s.last_node <;> simp [bind, Except.bind, hl] at h
        | ok c1 =>
        rw [hc1] at h
        cases hl : s.last_node with
        | none =>
          simp only [bind, Except.bind, addNode, setLast, hl] at h
          cases hp1 : processNode f c1
              ⟨s.node_count + 1, some (s.node_count + 1), s.merge_stack,
               s.nodes ++ [⟨s.node_count + 1, lbl, "diamond"⟩], s.edges⟩ with
          | error e => rw [hp1] at h; simp at h
          | ok s1 =>
            rw [hp1] at h
            have hA : Inv ⟨s.node_count + 1, some (s.node_count + 1), s.merge_stack,
                s.nodes ++ [⟨s.node_count + 1, lbl, "diamond"⟩], s.edges⟩ := by
              exact inv_ext hInv _ _ _ [⟨s.node_count + 1, lbl, "diamond"⟩] [] _ _
                rfl (by simp) (by omega) (by simp) (by simp)
                (by intro p hp; injection hp with hp; omega)
            obtain ⟨hInv1, hle1⟩ := ihN c1 _ s1 hp1 hA
            simp only [FC.node_count] at hle1
            simp only [] at h
            cases hc2 : childNode node 2 with
            | error e => rw [hc2] at h; simp at h
            | ok c2 =>
            rw [hc2] at h
            simp only [] at h
            cases hp2 : processNode f c2
                ⟨s1.node_count, some (s.node_count + 1), s1.merge_stack,
                 s1.nodes, s1.edges⟩ with
            | error e => rw [hp2] at h; simp at h
            | ok s2 =>
            rw [hp2] at h
            simp only [] at h
            have hB : Inv ⟨s1.node_count, some (s.node_count + 1), s1.merge_stack,
                s1.nodes, s1.edges⟩ :=
              inv_ext hInv1 _ _ _ [] [] _ _ (by simp) (by simp) (le_refl _)
                (by simp) (by simp)
                (by intro p hp; injection hp with hp; omega)
            obtain ⟨hInv2, hle2⟩ := ihN c2 _ s2 hp2 hB
            simp only [FC.node_count] at hle2
            rw [show mkInvisibleMerge s2 = (s2.node_count + 1,
                ⟨s2.node_count + 1, s2.last_node, s2.merge_stack,
                 s2.nodes ++ [⟨s2.node_count + 1, "", "point"⟩], s2.edges⟩) from rfl] at h
            cases hte : s1.last_node with
            | none => rw [hte] at h; simp [addEdgeFrom] at h
            | some te =>
            rw [hte] at h
            have hteLe : te ≤ s1.node_count := hInv1.2.2.2 te hte
            simp only [addEdgeFrom] at h
            cases hee : s2.last_node with
            | none => rw [hee] at h; simp at h
            | some ee =>
            rw [hee] at h
            have heeLe : ee ≤ s2.node_count := hInv2.2.2.2 ee hee
            simp only [addEdge, Except.ok.injEq] at h
            subst h
            constructor
            · refine inv_ext hInv2 _ _ _ [⟨s2.node_count + 1, "", "point"⟩]
                [⟨te, s2.node_count + 1, none⟩, ⟨ee, s2.node_count + 1, none⟩,
                 ⟨s.node_count + 1, s.node_count + 1 + 1, some "true"⟩,
                 ⟨s.node_count + 1, s1.node_count + 1, some "false"⟩] _ _
                rfl (by simp) (by omega) (by simp) ?_
                (by intro p hp; injection hp with hp; omega)
              intro e he
              simp only [List.mem_cons, List.mem_singleton] at he
              rcases he with rfl | rfl | rfl | rfl | hfalse
              · exact ⟨show 2 ≤ s2.node_count + 1 from by have := hInv2.count_pos; omega,
                  show te ≤ s2.node_count + 1 from by omega⟩
              · exact ⟨show 2 ≤ s2.node_count + 1 from by have := hInv2.count_pos; omega,
                  show ee ≤ s2.node_count + 1 from by omega⟩
              · exact ⟨show 2 ≤ s.node_count + 1 + 1 from by omega,
                  show s.node_count + 1 ≤ s2.node_count + 1 from by omega⟩
              · exact ⟨show 2 ≤ s1.node_count + 1 from by have := hInv1.count_pos; omega,
                  show s.node_count + 1 ≤ s2.node_count + 1 from by omega⟩
              · cases hfalse
            · show s.node_count ≤ s2.node_count + 1
              omega
        | some lst =>
          simp only [bind, Except.bind, addNode, setLast, addEdge, hl] at h
          cases hp1 : processNode f c1
              ⟨s.node_count + 1, some (s.node_count + 1), s.merge_stack,
               s.nodes ++ [⟨s.node_count + 1, lbl, "diamond"⟩],
               s.edges ++ [⟨lst, s.node_count + 1, none⟩]⟩ with
          | error e => rw [hp1] at h; simp at h
          | ok s1 =>
            rw [hp1] at h
            have hlstLe : lst ≤ s.node_count := hInv.2.2.2 lst hl
            have hA : Inv ⟨s.node_count + 1, some (s.node_count + 1), s.merge_stack,
                s.nodes ++ [⟨s.node_count + 1, lbl, "diamond"⟩],
                s.edges ++ [⟨lst, s.node_count + 1, none⟩]⟩ := by
              refine inv_ext hInv _ _ _ [⟨s.node_count + 1, lbl, "diamond"⟩]
                [⟨lst, s.node_count + 1, none⟩] _ _
                rfl rfl (by omega) (by simp) ?_
                (by intro p hp; injection hp with hp; omega)
              intro e he
              rw [List.mem_singleton] at he
              subst he
              exact ⟨show 2 ≤ s.node_count + 1 from by have := hInv.count_pos; omega,
                show lst ≤ s.node_count + 1 from by omega⟩
            obtain ⟨hInv1, hle1⟩ := ihN c1 _ s1 hp1 hA
            simp only [FC.node_count] at hle1
            simp only [] at h
            cases hc2 : childNode node 2 with
            | error e => rw [hc2] at h; simp at h
            | ok c2 =>
            rw [hc2] at h
            simp only [] at h
            cases hp2 : processNode f c2
                ⟨s1.node_count, some (s.node_count + 1), s1.merge_stack,
                 s1.nodes, s1.edges⟩ with
            | error e => rw [hp2] at h; simp at h
            | ok s2 =>
            rw [hp2] at h
            simp only [] at h
            have hB : Inv ⟨s1.node_count, some (s.node_count + 1), s1.merge_stack,
                s1.nodes, s1.edges⟩ :=
              inv_ext hInv1 _ _ _ [] [] _ _ (by simp) (by simp) (le_refl _)
                (by simp) (by simp)
                (by intro p hp; injection hp with hp; omega)
            obtain ⟨hInv2, hle2⟩ := ihN c2 _ s2 hp2 hB
            simp only [FC.node_count] at hle2
            rw [show mkInvisibleMerge s2 = (s2.node_count + 1,
                ⟨s2.node_count + 1, s2.last_node, s2.merge_stack,
                 s2.nodes ++ [⟨s2.node_count + 1, "", "point"⟩], s2.edges⟩) from rfl] at h
            cases hte : s1.last_node with
            | none => rw [hte] at h; simp [addEdgeFrom] at h
            | some te =>
            rw [hte] at h
            have hteLe : te ≤ s1.node_count := hInv1.2.2.2 te hte
            simp only [addEdgeFrom] at h
            cases hee : s2.last_node with
            | none => rw [hee] at h; simp at h
            | some ee =>
            rw [hee] at h
            have heeLe : ee ≤ s2.node_count := hInv2.2.2.2 ee hee
            simp only [addEdge, Except.ok.injEq] at h
            subst h
            constructor
            · refine inv_ext hInv2 _ _ _ [⟨s2.node_count + 1, "", "point"⟩]
                [⟨te, s2.node_count + 1, none⟩, ⟨ee, s2.node_count + 1, none⟩,
                 ⟨s.node_count + 1, s.node_count + 1 + 1, some "true"⟩,
                 ⟨s.node_count + 1, s1.node_count + 1, some "false"⟩] _ _
                rfl (by simp) (by omega) (by simp) ?_
                (by intro p hp; injection hp with hp; omega)
              intro e he
              simp only [List.mem_cons, List.mem_singleton] at he
              rcases he with rfl | rfl | rfl | rfl | hfalse
              · exact ⟨show 2 ≤ s2.node_count + 1 from by have := hInv2.count_pos; omega,
                  show te ≤ s2.node_count + 1 from by omega⟩
              · exact ⟨show 2 ≤ s2.node_count + 1 from by have := hInv2.count_pos; omega,
                  show ee ≤ s2.node_count + 1 from by omega⟩
              · exact ⟨show 2 ≤ s.node_count + 1 + 1 from by omega,
                  show s.node_count + 1 ≤ s2.node_count + 1 from by omega⟩
              · exact ⟨show 2 ≤ s1.node_count + 1 from by have := hInv1.count_pos; omega,
                  show s.node_count + 1 ≤ s2.node_count + 1 from by omega⟩
              · cases hfalse
            · show s.node_count ≤ s2.node_count + 1
              omega

      · -- if_stmt without else: the branch ends in the NameError raise
        cases hf : formatter f node with
        | error e =>
          rw [show (newNodeId s) = (s.node_count + 1, {s with node_count := s.node_count + 1}) from rfl] at h
          rw [hf] at h
          simp [bind, Except.bind] at h
        | ok lbl =>
        rw [show (newNodeId s) = (s.node_count + 1, {s with node_count := s.node_count + 1}) from rfl] at h
        rw [hf] at h
        cases hc1 : childNode node 1 with
        | error e =>
          rw [hc1] at h
          cases hl : s.last_node <;> simp [bind, Except.bind, hl] at h
        | ok c1 =>
        rw [hc1] at h
        cases hl : s.last_node with
        | none =>
          simp only [bind, Except.bind, addNode, setLast, hl] at h
          cases hp1 : processNode f c1
              ⟨s.node_count + 1, some (s.node_count + 1), s.merge_stack,
               s.nodes ++ [⟨s.node_count + 1, lbl, "diamond"⟩], s.edges⟩ with
          | error e => rw [hp1] at h; simp at h
          | ok s1 =>
            rw [hp1] at h
            simp only [] at h
            split at h <;> first
              | simp at h
              | (split at h <;> simp at h)
        | some lst =>
          simp only [bind, Except.bind, addNode, setLast, addEdge, hl] at h
          cases hp1 : processNode f c1
              ⟨s.node_count + 1, some (s.node_count + 1), s.merge_stack,
               s.nodes ++ [⟨s.node_count + 1, lbl, "diamond"⟩],
               s.edges ++ [⟨lst, s.node_count + 1, none⟩]⟩ with
          | error e => rw [hp1] at h; simp at h
          | ok s1 =>
            rw [hp1] at h
            simp only [] at h
            split at h <;> first
              | simp at h
              | (split at h <;> simp at h)
      · -- while loops
        cases hf : formatter f node with
        | error e =>
          rw [show (newNodeId s) = (s.node_count + 1, {s with node_count := s.node_count + 1}) from rfl] at h
          rw [hf] at h
          simp [bind, Except.bind] at h
        | ok lbl =>
        rw [show (newNodeId s) = (s.node_count + 1, {s with node_count := s.node_count + 1}) from rfl] at h
        rw [hf] at h
        cases hc1 : childNode node 1 with
        | error e =>
          rw [hc1] at h
          cases hl : s.last_node <;> simp [bind, Except.bind, hl] at h
        | ok c1 =>
        rw [hc1] at h
        cases hl : s.last_node with
        | none =>
          simp only [bind, Except.bind, addNode, setLast, hl] at h
          cases hp1 : processNode f c1
              ⟨s.node_count + 1, none, s.merge_stack,
               s.nodes ++ [⟨s.node_count + 1, lbl, "diamond"⟩], s.edges⟩ with
          | error e => rw [hp1] at h; simp at h
          | ok s1 =>
            rw [hp1] at h
            simp only [] at h
            have hA : Inv ⟨s.node_count + 1, none, s.merge_stack,
                s.nodes ++ [⟨s.node_count + 1, lbl, "diamond"⟩], s.edges⟩ :=
              inv_ext hInv _ _ _ [⟨s.node_count + 1, lbl, "diamond"⟩] [] _ _
                rfl (by simp) (by omega) (by simp) (by simp)
                (by intro p hp; exact absurd hp (by simp))
            obtain ⟨hInv1, hle1⟩ := ihN c1 _ s1 hp1 hA
            simp only [FC.node_count] at hle1
            simp only [addEdge, addEdgeFrom] at h
            cases hbe : s1.last_node with
            | none => rw [hbe] at h; simp at h
            | some be =>
            rw [hbe] at h
            simp only [] at h
            have hbeLe : be ≤ s1.node_count := hInv1.2.2.2 be hbe
            rw [show mkInvisibleMerge ⟨s1.node_count, some be, s1.merge_stack, s1.nodes,
                (s1.edges ++ [⟨s.node_count + 1, s.node_count + 1 + 1, some "true"⟩]) ++
                  [⟨be, s.node_count + 1, none⟩]⟩ = (s1.node_count + 1,
                ⟨s1.node_count + 1, some be, s1.merge_stack,
                 s1.nodes ++ [⟨s1.node_count + 1, "", "point"⟩],
                 (s1.edges ++ [⟨s.node_count + 1, s.node_count + 1 + 1, some "true"⟩]) ++
                   [⟨be, s.node_count + 1, none⟩]⟩) from rfl] at h
            simp only [Except.ok.injEq] at h
            subst h
            constructor
            · refine inv_ext hInv1 _ _ _ [⟨s1.node_count + 1, "", "point"⟩]
                [⟨s.node_count + 1, s.node_count + 1 + 1, some "true"⟩,
                 ⟨be, s.node_count + 1, none⟩,
                 ⟨s.node_count + 1, s1.node_count + 1, some "false"⟩] _ _
                rfl (by simp [List.append_assoc]) (by omega) (by simp) ?_
                (by intro p hp; injection hp with hp; omega)
              intro e he
              simp only [List.mem_cons, List.mem_singleton] at he
              rcases he with rfl | rfl | rfl | hfalse
              · exact ⟨show 2 ≤ s.node_count + 1 + 1 from by omega,
                  show s.node_count + 1 ≤ s1.node_count + 1 from by omega⟩
              · exact ⟨show 2 ≤ s.node_count + 1 from by have := hInv.count_pos; omega,
                  show be ≤ s1.node_count + 1 from by omega⟩
              · exact ⟨show 2 ≤ s1.node_count + 1 from by have := hInv1.count_pos; omega,
                  show s.node_count + 1 ≤ s1.node_count + 1 from by omega⟩
              · cases hfalse
            · show s.node_count ≤ s1.node_count + 1
              omega
        | some lst =>
          simp only [bind, Except.bind, addNode, setLast, addEdge, hl] at h
          cases hp1 : processNode f c1
              ⟨s.node_count + 1, none, s.merge_stack,
               s.nodes ++ [⟨s.node_count + 1, lbl, "diamond"⟩],
               s.edges ++ [⟨lst, s.node_count + 1, none⟩]⟩ with
          | error e => rw [hp1] at h; simp at h
          | ok s1 =>
            rw [hp1] at h
            simp only [] at h
            have hlstLe : lst ≤ s.node_count := hInv.2.2.2 lst hl
            have hA : Inv ⟨s.node_count + 1, none, s.merge_stack,
                s.nodes ++ [⟨s.node_count + 1, lbl, "diamond"⟩],
                s.edges ++ [⟨lst, s.node_count + 1, none⟩]⟩ := by
              refine inv_ext hInv _ _ _ [⟨s.node_count + 1, lbl, "diamond"⟩]
                [⟨lst, s.node_count + 1, none⟩] _ _
                rfl rfl (by omega) (by simp) ?_
                (by intro p hp; exact absurd hp (by simp))
              intro e he
              rw [List.mem_singleton] at he
              subst he
              exact ⟨show 2 ≤ s.node_count + 1 from by have := hInv.count_pos; omega,
                show lst ≤ s.node_count + 1 from by omega⟩
            obtain ⟨hInv1, hle1⟩ := ihN c1 _ s1 hp1 hA
            simp only [FC.node_count] at hle1
            simp only [addEdge, addEdgeFrom] at h
            cases hbe : s1.last_node with
            | none => rw [hbe] at h; simp at h
            | some be =>
            rw [hbe] at h
            simp only [] at h
            have hbeLe : be ≤ s1.node_count := hInv1.2.2.2 be hbe
            rw [show mkInvisibleMerge ⟨s1.node_count, some be, s1.merge_stack, s1.nodes,
                (s1.edges ++ [⟨s.node_count + 1, s.node_count + 1 + 1, some "true"⟩]) ++
                  [⟨be, s.node_count + 1, none⟩]⟩ = (s1.node_count + 1,
                ⟨s1.node_count + 1, some be, s1.merge_stack,
                 s1.nodes ++ [⟨s1.node_count + 1, "", "point"⟩],
                 (s1.edges ++ [⟨s.node_count + 1, s.node_count + 1 + 1, some "true"⟩]) ++
                   [⟨be, s.node_count + 1, none⟩]⟩) from rfl] at h
            simp only [Except.ok.injEq] at h
            subst h
            constructor
            · refine inv_ext hInv1 _ _ _ [⟨s1.node_count + 1, "", "point"⟩]
                [⟨s.node_count + 1, s.node_count + 1 + 1, some "true"⟩,
                 ⟨be, s.node_count + 1, none⟩,
                 ⟨s.node_count + 1, s1.node_count + 1, some "false"⟩] _ _
                rfl (by simp [List.append_assoc]) (by omega) (by simp) ?_
                (by intro p hp; injection hp with hp; omega)
              intro e he
              simp only [List.mem_cons, List.mem_singleton] at he
              rcases he with rfl | rfl | rfl | hfalse
              · exact ⟨show 2 ≤ s.node_count + 1 + 1 from by omega,
                  show s.node_count + 1 ≤ s1.node_count + 1 from by omega⟩
              · exact ⟨show 2 ≤ s.node_count + 1 from by have := hInv.count_pos; omega,
                  show be ≤ s1.node_count + 1 from by omega⟩
              · exact ⟨show 2 ≤ s1.node_count + 1 from by have := hInv1.count_pos; omega,
                  show s.node_count + 1 ≤ s1.node_count + 1 from by omega⟩
              · cases hfalse
            · show s.node_count ≤ s1.node_count + 1
              omega

      · -- for loops
        cases hin : childElem node 0 with
        | error e => rw [hin] at h; simp at h
        | ok initOpt =>
        rw [hin] at h
        try simp only [] at h
        cases initOpt with
        | none =>
          try simp only [] at h
          rw [show (newNodeId s) = (s.node_count + 1, {s with node_count := s.node_count + 1}) from rfl] at h
          try simp only [] at h
          cases hc1 : childElem node 1 with
          | error e => rw [hc1] at h; simp at h
          | ok c1e =>
          rw [hc1] at h
          try simp only [] at h
          cases c1e with
          | none =>
            try simp only [] at h
            simp only [addNode, setLast] at h
            try simp only [] at h
            cases hlX : s.last_node with
            | none =>
              rw [hlX] at h
              try simp only [] at h
              cases hc3 : childNode node 3 with
              | error e => rw [hc3] at h; simp at h
              | ok c3 =>
              rw [hc3] at h
              try simp only [] at h
              cases hp2 : processNode f c3
                  ⟨s.node_count + 1, none, s.merge_stack,
                   s.nodes ++ [⟨s.node_count + 1, "for_cond (" ++ "" ++ ")", "diamond"⟩],
                   s.edges⟩ with
              | error e => rw [hp2] at h; simp at h
              | ok s2 =>
              rw [hp2] at h
              try simp only [] at h
              have hAmid : Inv ⟨s.node_count + 1, none, s.merge_stack,
                  s.nodes ++ [⟨s.node_count + 1, "for_cond (" ++ "" ++ ")", "diamond"⟩],
                  s.edges⟩ :=
                inv_ext hInv (s.node_count + 1) none s.merge_stack
                  [⟨s.node_count + 1, "for_cond (" ++ "" ++ ")", "diamond"⟩] [] _ _
                  rfl (by simp) (by omega) (by simp) (by simp)
                  (by intro p hp; exact absurd hp (by simp))
              obtain ⟨hInv2, hle2⟩ := ihN c3 _ s2 hp2 hAmid
              simp only [FC.node_count] at hle2
              cases hup : childElem node 2 with
              | error e => rw [hup] at h; simp at h
              | ok updOpt =>
              rw [hup] at h
              try simp only [] at h
              cases updOpt with
              | none =>
                simp only [addEdge, addEdgeFrom] at h
                cases hbe : s2.last_node with
                | none => rw [hbe] at h; simp at h
                | some be =>
                rw [hbe] at h
                simp only [] at h
                have hbeLe : be ≤ s2.node_count := hInv2.2.2.2 be hbe
                rw [show mkInvisibleMerge ⟨s2.node_count, some be, s2.merge_stack, s2.nodes,
                    (s2.edges ++ [⟨s.node_count + 1, s.node_count + 1 + 1, some "true"⟩]) ++
                      [⟨be, s.node_count + 1, none⟩]⟩ = (s2.node_count + 1,
                    ⟨s2.node_count + 1, some be, s2.merge_stack,
                     s2.nodes ++ [⟨s2.node_count + 1, "", "point"⟩],
                     (s2.edges ++ [⟨s.node_count + 1, s.node_count + 1 + 1, some "true"⟩]) ++
                       [⟨be, s.node_count + 1, none⟩]⟩) from rfl] at h
                simp only [Except.ok.injEq] at h
                subst h
                constructor
                · refine inv_ext hInv2 (s2.node_count + 1) (some (s2.node_count + 1))
                    s2.merge_stack [⟨s2.node_count + 1, "", "point"⟩]
                    [⟨s.node_count + 1, s.node_count + 1 + 1, some "true"⟩,
                     ⟨be, s.node_count + 1, none⟩,
                     ⟨s.node_count + 1, s2.node_count + 1, some "false"⟩] _ _
                    rfl (by simp [List.append_assoc]) (by omega) (by simp) ?_
                    (by intro p hp; injection hp with hp; omega)
                  intro e he
                  simp only [List.mem_cons, List.mem_singleton] at he
                  rcases he with rfl | rfl | rfl | hfalse
                  · exact ⟨show 2 ≤ s.node_count + 1 + 1 from by omega,
                      show s.node_count + 1 ≤ s2.node_count + 1 from by omega⟩
                  · exact ⟨show 2 ≤ s.node_count + 1 from by have := hInv.count_pos; omega,
                      show be ≤ s2.node_count + 1 from by omega⟩
                  · exact ⟨show 2 ≤ s2.node_count + 1 from by have := hInv2.count_pos; omega,
                      show s.node_count + 1 ≤ s2.node_count + 1 from by omega⟩
                  · cases hfalse
                · show s.node_count ≤ s2.node_count + 1
                  omega
              | some u =>
                simp only [addEdge] at h
                rw [show (newNodeId ⟨s2.node_count, s2.last_node, s2.merge_stack, s2.nodes,
                    s2.edges ++ [⟨s.node_count + 1, s.node_count + 1 + 1, some "true"⟩]⟩) =
                    (s2.node_count + 1, ⟨s2.node_count + 1, s2.last_node, s2.merge_stack, s2.nodes,
                     s2.edges ++ [⟨s.node_count + 1, s.node_count + 1 + 1, some "true"⟩]⟩) from rfl] at h
                cases hfu : formatter f u with
                | error e => rw [hfu] at h; simp at h
                | ok ul =>
                rw [hfu] at h
                simp only [addNode, addEdgeFrom] at h
                cases hbe : s2.last_node with
                | none => rw [hbe] at h; simp at h
                | some be =>
                rw [hbe] at h
                simp only [] at h
                have hbeLe : be ≤ s2.node_count := hInv2.2.2.2 be hbe
                simp only [addEdge] at h
                rw [show mkInvisibleMerge ⟨s2.node_count + 1, some be, s2.merge_stack,
                    s2.nodes ++ [⟨s2.node_count + 1, ul, "box"⟩],
                    ((s2.edges ++ [⟨s.node_count + 1, s.node_count + 1 + 1, some "true"⟩]) ++
                      [⟨be, s2.node_count + 1, none⟩]) ++
                      [⟨s2.node_count + 1, s.node_count + 1, none⟩]⟩ = (s2.node_count + 1 + 1,
                    ⟨s2.node_count + 1 + 1, some be, s2.merge_stack,
                     (s2.nodes ++ [⟨s2.node_count + 1, ul, "box"⟩]) ++
                       [⟨s2.node_count + 1 + 1, "", "point"⟩],
                     ((s2.edges ++ [⟨s.node_count + 1, s.node_count + 1 + 1, some "true"⟩]) ++
                       [⟨be, s2.node_count + 1, none⟩]) ++
                       [⟨s2.node_count + 1, s.node_count + 1, none⟩]⟩) from rfl] at h
                simp only [Except.ok.injEq] at h
                subst h
                constructor
                · refine inv_ext hInv2 (s2.node_count + 1 + 1) (some (s2.node_count + 1 + 1))
                    s2.merge_stack
                    [⟨s2.node_count + 1, ul, "box"⟩, ⟨s2.node_count + 1 + 1, "", "point"⟩]
                    [⟨s.node_count + 1, s.node_count + 1 + 1, some "true"⟩,
                     ⟨be, s2.node_count + 1, none⟩,
                     ⟨s2.node_count + 1, s.node_count + 1, none⟩,
                     ⟨s.node_count + 1, s2.node_count + 1 + 1, some "false"⟩] _ _
                    (by simp [List.append_assoc]) (by simp [List.append_assoc]) (by omega)
                    (by intro n hn; simp at hn; rcases hn with rfl | rfl <;> rfl) ?_
                    (by intro p hp; injection hp with hp; omega)
                  intro e he
                  simp only [List.mem_cons, List.mem_singleton] at he
                  rcases he with rfl | rfl | rfl | rfl | hfalse
                  · exact ⟨show 2 ≤ s.node_count + 1 + 1 from by omega,
                      show s.node_count + 1 ≤ s2.node_count + 1 + 1 from by omega⟩
                  · exact ⟨show 2 ≤ s2.node_count + 1 from by have := hInv2.count_pos; omega,
                      show be ≤ s2.node_count + 1 + 1 from by omega⟩
                  · exact ⟨show 2 ≤ s.node_count + 1 from by have := hInv.count_pos; omega,
                      show s2.node_count + 1 ≤ s2.node_count + 1 + 1 from by omega⟩
                  · exact ⟨show 2 ≤ s2.node_count + 1 + 1 from by omega,
                      show s.node_count + 1 ≤ s2.node_count + 1 + 1 from by omega⟩
                  · cases hfalse
                · show s.node_count ≤ s2.node_count + 1 + 1
                  omega
            | some lstX =>
              rw [hlX] at h
              try simp only [addEdge] at h
              have hlstLe : lstX ≤ s.node_count := hInv.2.2.2 lstX hlX
              cases hc3 : childNode node 3 with
              | error e => rw [hc3] at h; simp at h
              | ok c3 =>
              rw [hc3] at h
              try simp only [] at h
              cases hp2 : processNode f c3
                  ⟨s.node_count + 1, none, s.merge_stack,
                   s.nodes ++ [⟨s.node_count + 1, "for_cond (" ++ "" ++ ")", "diamond"⟩],
                   s.edges ++ [⟨lstX, s.node_count + 1, none⟩]⟩ with
              | error e => rw [hp2] at h; simp at h
              | ok s2 =>
              rw [hp2] at h
              try simp only [] at h
              have hAmid : Inv ⟨s.node_count + 1, none, s.merge_stack,
                  s.nodes ++ [⟨s.node_count + 1, "for_cond (" ++ "" ++ ")", "diamond"⟩],
                  s.edges ++ [⟨lstX, s.node_count + 1, none⟩]⟩ := by
                refine inv_ext hInv (s.node_count + 1) none s.merge_stack
                  [⟨s.node_count + 1, "for_cond (" ++ "" ++ ")", "diamond"⟩]
                  [⟨lstX, s.node_count + 1, none⟩] _ _
                  rfl rfl (by omega) (by simp) ?_
                  (by intro p hp; exact absurd hp (by simp))
                intro e he
                rw [List.mem_singleton] at he
                subst he
                exact ⟨show 2 ≤ s.node_count + 1 from by have := hInv.count_pos; omega,
                  show lstX ≤ s.node_count + 1 from by omega⟩
              obtain ⟨hInv2, hle2⟩ := ihN c3 _ s2 hp2 hAmid
              simp only [FC.node_count] at hle2
              cases hup : childElem node 2 with
              | error e => rw [hup] at h; simp at h
              | ok updOpt =>
              rw [hup] at h
              try simp only [] at h
              cases updOpt with
              | none =>
                simp only [addEdge, addEdgeFrom] at h
                cases hbe : s2.last_node with
                | none => rw [hbe] at h; simp at h
                | some be =>
                rw [hbe] at h
                simp only [] at h
                have hbeLe : be ≤ s2.node_count := hInv2.2.2.2 be hbe
                rw [show mkInvisibleMerge ⟨s2.node_count, some be, s2.merge_stack, s2.nodes,
                    (s2.edges ++ [⟨s.node_count + 1, s.node_count + 1 + 1, some "true"⟩]) ++
                      [⟨be, s.node_count + 1, none⟩]⟩ = (s2.node_count + 1,
                    ⟨s2.node_count + 1, some be, s2.merge_stack,
                     s2.nodes ++ [⟨s2.node_count + 1, "", "point"⟩],
                     (s2.edges ++ [⟨s.node_count + 1, s.node_count + 1 + 1, some "true"⟩]) ++
                       [⟨be, s.node_count + 1, none⟩]⟩) from rfl] at h
                simp only [Except.ok.injEq] at h
                subst h
                constructor
                · refine inv_ext hInv2 (s2.node_count + 1) (some (s2.node_count + 1))
                    s2.merge_stack [⟨s2.node_count + 1, "", "point"⟩]
                    [⟨s.node_count + 1, s.node_count + 1 + 1, some "true"⟩,
                     ⟨be, s.node_count + 1, none⟩,
                     ⟨s.node_count + 1, s2.node_count + 1, some "false"⟩] _ _
                    rfl (by simp [List.append_assoc]) (by omega) (by simp) ?_
                    (by intro p hp; injection hp with hp; omega)
                  intro e he
                  simp only [List.mem_cons, List.mem_singleton] at he
                  rcases he with rfl | rfl | rfl | hfalse
                  · exact ⟨show 2 ≤ s.node_count + 1 + 1 from by omega,
                      show s.node_count + 1 ≤ s2.node_count + 1 from by omega⟩
                  · exact ⟨show 2 ≤ s.node_count + 1 from by have := hInv.count_pos; omega,
                      show be ≤ s2.node_count + 1 from by omega⟩
                  · exact ⟨show 2 ≤ s2.node_count + 1 from by have := hInv2.count_pos; omega,
                      show s.node_count + 1 ≤ s2.node_count + 1 from by omega⟩
                  · cases hfalse
                · show s.node_count ≤ s2.node_count + 1
                  omega
              | some u =>
                simp only [addEdge] at h
                rw [show (newNodeId ⟨s2.node_count, s2.last_node, s2.merge_stack, s2.nodes,
                    s2.edges ++ [⟨s.node_count + 1, s.node_count + 1 + 1, some "true"⟩]⟩) =
                    (s2.node_count + 1, ⟨s2.node_count + 1, s2.last_node, s2.merge_stack, s2.nodes,
                     s2.edges ++ [⟨s.node_count + 1, s.node_count + 1 + 1, some "true"⟩]⟩) from rfl] at h
                cases hfu : formatter f u with
                | error e => rw [hfu] at h; simp at h
                | ok ul =>
                rw [hfu] at h
                simp only [addNode, addEdgeFrom] at h
                cases hbe : s2.last_node with
                | none => rw [hbe] at h; simp at h
                | some be =>
                rw [hbe] at h
                simp only [] at h
                have hbeLe : be ≤ s2.node_count := hInv2.2.2.2 be hbe
                simp only [addEdge] at h
                rw [show mkInvisibleMerge ⟨s2.node_count + 1, some be, s2.merge_stack,
                    s2.nodes ++ [⟨s2.node_count + 1, ul, "box"⟩],
                    ((s2.edges ++ [⟨s.node_count + 1, s.node_count + 1 + 1, some "true"⟩]) ++
                      [⟨be, s2.node_count + 1, none⟩]) ++
                      [⟨s2.node_count + 1, s.node_count + 1, none⟩]⟩ = (s2.node_count + 1 + 1,
                    ⟨s2.node_count + 1 + 1, some be, s2.merge_stack,
                     (s2.nodes ++ [⟨s2.node_count + 1, ul, "box"⟩]) ++
                       [⟨s2.node_count + 1 + 1, "", "point"⟩],
                     ((s2.edges ++ [⟨s.node_count + 1, s.node_count + 1 + 1, some "true"⟩]) ++
                       [⟨be, s2.node_count + 1, none⟩]) ++
                       [⟨s2.node_count + 1, s.node_count + 1, none⟩]⟩) from rfl] at h
                simp only [Except.ok.injEq] at h
                subst h
                constructor
                · refine inv_ext hInv2 (s2.node_count + 1 + 1) (some (s2.node_count + 1 + 1))
                    s2.merge_stack
                    [⟨s2.node_count + 1, ul, "box"⟩, ⟨s2.node_count + 1 + 1, "", "point"⟩]
                    [⟨s.node_count + 1, s.node_count + 1 + 1, some "true"⟩,
                     ⟨be, s2.node_count + 1, none⟩,
                     ⟨s2.node_count + 1, s.node_count + 1, none⟩,
                     ⟨s.node_count + 1, s2.node_count + 1 + 1, some "false"⟩] _ _
                    (by simp [List.append_assoc]) (by simp [List.append_assoc]) (by omega)
                    (by intro n hn; simp at hn; rcases hn with rfl | rfl <;> rfl) ?_
                    (by intro p hp; injection hp with hp; omega)
                  intro e he
                  simp only [List.mem_cons, List.mem_singleton] at he
                  rcases he with rfl | rfl | rfl | rfl | hfalse
                  · exact ⟨show 2 ≤ s.node_count + 1 + 1 from by omega,
                      show s.node_count + 1 ≤ s2.node_count + 1 + 1 from by omega⟩
                  · exact ⟨show 2 ≤ s2.node_count + 1 from by have := hInv2.count_pos; omega,
                      show be ≤ s2.node_count + 1 + 1 from by omega⟩
                  · exact ⟨show 2 ≤ s.node_count + 1 from by have := hInv.count_pos; omega,
                      show s2.node_count + 1 ≤ s2.node_count + 1 + 1 from by omega⟩
                  · exact ⟨show 2 ≤ s2.node_count + 1 + 1 from by omega,
                      show s.node_count + 1 ≤ s2.node_count + 1 + 1 from by omega⟩
                  · cases hfalse
                · show s.node_count ≤ s2.node_count + 1 + 1
                  omega
          | some c1v =>
            try simp only [] at h
            cases hex : exprToStr f (some c1v) with
            | error e => rw [hex] at h; simp at h
            | ok condlbl =>
            rw [hex] at h
            try simp only [] at h
            simp only [addNode, setLast] at h
            try simp only [] at h
            cases hlX : s.last_node with
            | none =>
              rw [hlX] at h
              try simp only [] at h
              cases hc3 : childNode node 3 with
              | error e => rw [hc3] at h; simp at h
              | ok c3 =>
              rw [hc3] at h
              try simp only [] at h
              cases hp2 : processNode f c3
                  ⟨s.node_count + 1, none, s.merge_stack,
                   s.nodes ++ [⟨s.node_count + 1, "for_cond (" ++ condlbl ++ ")", "diamond"⟩],
                   s.edges⟩ with
              | error e => rw [hp2] at h; simp at h
              | ok s2 =>
              rw [hp2] at h
              try simp only [] at h
              have hAmid : Inv ⟨s.node_count + 1, none, s.merge_stack,
                  s.nodes ++ [⟨s.node_count + 1, "for_cond (" ++ condlbl ++ ")", "diamond"⟩],
                  s.edges⟩ :=
                inv_ext hInv (s.node_count + 1) none s.merge_stack
                  [⟨s.node_count + 1, "for_cond (" ++ condlbl ++ ")", "diamond"⟩] [] _ _
                  rfl (by simp) (by omega) (by simp) (by simp)
                  (by intro p hp; exact absurd hp (by simp))
              obtain ⟨hInv2, hle2⟩ := ihN c3 _ s2 hp2 hAmid
              simp only [FC.node_count] at hle2
              cases hup : childElem node 2 with
              | error e => rw [hup] at h; simp at h
              | ok updOpt =>
              rw [hup] at h
              try simp only [] at h
              cases updOpt with
              | none =>
                simp only [addEdge, addEdgeFrom] at h
                cases hbe : s2.last_node with
                | none => rw [hbe] at h; simp at h
                | some be =>
                rw [hbe] at h
                simp only [] at h
                have hbeLe : be ≤ s2.node_count := hInv2.2.2.2 be hbe
                rw [show mkInvisibleMerge ⟨s2.node_count, some be, s2.merge_stack, s2.nodes,
                    (s2.edges ++ [⟨s.node_count + 1, s.node_count + 1 + 1, some "true"⟩]) ++
                      [⟨be, s.node_count + 1, none⟩]⟩ = (s2.node_count + 1,
                    ⟨s2.node_count + 1, some be, s2.merge_stack,
                     s2.nodes ++ [⟨s2.node_count + 1, "", "point"⟩],
                     (s2.edges ++ [⟨s.node_count + 1, s.node_count + 1 + 1, some "true"⟩]) ++
                       [⟨be, s.node_count + 1, none⟩]⟩) from rfl] at h
                simp only [Except.ok.injEq] at h
                subst h
                constructor
                · refine inv_ext hInv2 (s2.node_count + 1) (some (s2.node_count + 1))
                    s2.merge_stack [⟨s2.node_count + 1, "", "point"⟩]
                    [⟨s.node_count + 1, s.node_count + 1 + 1, some "true"⟩,
                     ⟨be, s.node_count + 1, none⟩,
                     ⟨s.node_count + 1, s2.node_count + 1, some "false"⟩] _ _
                    rfl (by simp [List.append_assoc]) (by omega) (by simp) ?_
                    (by intro p hp; injection hp with hp; omega)
                  intro e he
                  simp only [List.mem_cons, List.mem_singleton] at he
                  rcases he with rfl | rfl | rfl | hfalse
                  · exact ⟨show 2 ≤ s.node_count + 1 + 1 from by omega,
                      show s.node_count + 1 ≤ s2.node_count + 1 from by omega⟩
                  · exact ⟨show 2 ≤ s.node_count + 1 from by have := hInv.count_pos; omega,
                      show be ≤ s2.node_count + 1 from by omega⟩
                  · exact ⟨show 2 ≤ s2.node_count + 1 from by have := hInv2.count_pos; omega,
                      show s.node_count + 1 ≤ s2.node_count + 1 from by omega⟩
                  · cases hfalse
                · show s.node_count ≤ s2.node_count + 1
                  omega
              | some u =>
                simp only [addEdge] at h
                rw [show (newNodeId ⟨s2.node_count, s2.last_node, s2.merge_stack, s2.nodes,
                    s2.edges ++ [⟨s.node_count + 1, s.node_count + 1 + 1, some "true"⟩]⟩) =
                    (s2.node_count + 1, ⟨s2.node_count + 1, s2.last_node, s2.merge_stack, s2.nodes,
                     s2.edges ++ [⟨s.node_count + 1, s.node_count + 1 + 1, some "true"⟩]⟩) from rfl] at h
                cases hfu : formatter f u with
                | error e => rw [hfu] at h; simp at h
                | ok ul =>
                rw [hfu] at h
                simp only [addNode, addEdgeFrom] at h
                cases hbe : s2.last_node with
                | none => rw [hbe] at h; simp at h
                | some be =>
                rw [hbe] at h
                simp only [] at h
                have hbeLe : be ≤ s2.node_count := hInv2.2.2.2 be hbe
                simp only [addEdge] at h
                rw [show mkInvisibleMerge ⟨s2.node_count + 1, some be, s2.merge_stack,
                    s2.nodes ++ [⟨s2.node_count + 1, ul, "box"⟩],
                    ((s2.edges ++ [⟨s.node_count + 1, s.node_count + 1 + 1, some "true"⟩]) ++
                      [⟨be, s2.node_count + 1, none⟩]) ++
                      [⟨s2.node_count + 1, s.node_count + 1, none⟩]⟩ = (s2.node_count + 1 + 1,
                    ⟨s2.node_count + 1 + 1, some be, s2.merge_stack,
                     (s2.nodes ++ [⟨s2.node_count + 1, ul, "box"⟩]) ++
                       [⟨s2.node_count + 1 + 1, "", "point"⟩],
                     ((s2.edges ++ [⟨s.node_count + 1, s.node_count + 1 + 1, some "true"⟩]) ++
                       [⟨be, s2.node_count + 1, none⟩]) ++
                       [⟨s2.node_count + 1, s.node_count + 1, none⟩]⟩) from rfl] at h
                simp only [Except.ok.injEq] at h
                subst h
                constructor
                · refine inv_ext hInv2 (s2.node_count + 1 + 1) (some (s2.node_count + 1 + 1))
                    s2.merge_stack
                    [⟨s2.node_count + 1, ul, "box"⟩, ⟨s2.node_count + 1 + 1, "", "point"⟩]
                    [⟨s.node_count + 1, s.node_count + 1 + 1, some "true"⟩,
                     ⟨be, s2.node_count + 1, none⟩,
                     ⟨s2.node_count + 1, s.node_count + 1, none⟩,
                     ⟨s.node_count + 1, s2.node_count + 1 + 1, some "false"⟩] _ _
                    (by simp [List.append_assoc]) (by simp [List.append_assoc]) (by omega)
                    (by intro n hn; simp at hn; rcases hn with rfl | rfl <;> rfl) ?_
                    (by intro p hp; injection hp with hp; omega)
                  intro e he
                  simp only [List.mem_cons, List.mem_singleton] at he
                  rcases he with rfl | rfl | rfl | rfl | hfalse
                  · exact ⟨show 2 ≤ s.node_count + 1 + 1 from by omega,
                      show s.node_count + 1 ≤ s2.node_count + 1 + 1 from by omega⟩
                  · exact ⟨show 2 ≤ s2.node_count + 1 from by have := hInv2.count_pos; omega,
                      show be ≤ s2.node_count + 1 + 1 from by omega⟩
                  · exact ⟨show 2 ≤ s.node_count + 1 from by have := hInv.count_pos; omega,
                      show s2.node_count + 1 ≤ s2.node_count + 1 + 1 from by omega⟩
                  · exact ⟨show 2 ≤ s2.node_count + 1 + 1 from by omega,
                      show s.node_count + 1 ≤ s2.node_count + 1 + 1 from by omega⟩
                  · cases hfalse
                · show s.node_count ≤ s2.node_count + 1 + 1
                  omega
            | some lstX =>
              rw [hlX] at h
              try simp only [addEdge] at h
              have hlstLe : lstX ≤ s.node_count := hInv.2.2.2 lstX hlX
              cases hc3 : childNode node 3 with
              | error e => rw [hc3] at h; simp at h
              | ok c3 =>
              rw [hc3] at h
              try simp only [] at h
              cases hp2 : processNode f c3
                  ⟨s.node_count + 1, none, s.merge_stack,
                   s.nodes ++ [⟨s.node_count + 1, "for_cond (" ++ condlbl ++ ")", "diamond"⟩],
                   s.edges ++ [⟨lstX, s.node_count + 1, none⟩]⟩ with
              | error e => rw [hp2] at h; simp at h
              | ok s2 =>
              rw [hp2] at h
              try simp only [] at h
              have hAmid : Inv ⟨s.node_count + 1, none, s.merge_stack,
                  s.nodes ++ [⟨s.node_count + 1, "for_cond (" ++ condlbl ++ ")", "diamond"⟩],
                  s.edges ++ [⟨lstX, s.node_count + 1, none⟩]⟩ := by
                refine inv_ext hInv (s.node_count + 1) none s.merge_stack
                  [⟨s.node_count + 1, "for_cond (" ++ condlbl ++ ")", "diamond"⟩]
                  [⟨lstX, s.node_count + 1, none⟩] _ _
                  rfl rfl (by omega) (by simp) ?_
                  (by intro p hp; exact absurd hp (by simp))
                intro e he
                rw [List.mem_singleton] at he
                subst he
                exact ⟨show 2 ≤ s.node_count + 1 from by have := hInv.count_pos; omega,
                  show lstX ≤ s.node_count + 1 from by omega⟩
              obtain ⟨hInv2, hle2⟩ := ihN c3 _ s2 hp2 hAmid
              simp only [FC.node_count] at hle2
              cases hup : childElem node 2 with
              | error e => rw [hup] at h; simp at h
              | ok updOpt =>
              rw [hup] at h
              try simp only [] at h
              cases updOpt with
              | none =>
                simp only [addEdge, addEdgeFrom] at h
                cases hbe : s2.last_node with
                | none => rw [hbe] at h; simp at h
                | some be =>
                rw [hbe] at h
                simp only [] at h
                have hbeLe : be ≤ s2.node_count := hInv2.2.2.2 be hbe
                rw [show mkInvisibleMerge ⟨s2.node_count, some be, s2.merge_stack, s2.nodes,
                    (s2.edges ++ [⟨s.node_count + 1, s.node_count + 1 + 1, some "true"⟩]) ++
                      [⟨be, s.node_count + 1, none⟩]⟩ = (s2.node_count + 1,
                    ⟨s2.node_count + 1, some be, s2.merge_stack,
                     s2.nodes ++ [⟨s2.node_count + 1, "", "point"⟩],
                     (s2.edges ++ [⟨s.node_count + 1, s.node_count + 1 + 1, some "true"⟩]) ++
                       [⟨be, s.node_count + 1, none⟩]⟩) from rfl] at h
                simp only [Except.ok.injEq] at h
                subst h
                constructor
                · refine inv_ext hInv2 (s2.node_count + 1) (some (s2.node_count + 1))
                    s2.merge_stack [⟨s2.node_count + 1, "", "point"⟩]
                    [⟨s.node_count + 1, s.node_count + 1 + 1, some "true"⟩,
                     ⟨be, s.node_count + 1, none⟩,
                     ⟨s.node_count + 1, s2.node_count + 1, some "false"⟩] _ _
                    rfl (by simp [List.append_assoc]) (by omega) (by simp) ?_
                    (by intro p hp; injection hp with hp; omega)
                  intro e he
                  simp only [List.mem_cons, List.mem_singleton] at he
                  rcases he with rfl | rfl | rfl | hfalse
                  · exact ⟨show 2 ≤ s.node_count + 1 + 1 from by omega,
                      show s.node_count + 1 ≤ s2.node_count + 1 from by omega⟩
                  · exact ⟨show 2 ≤ s.node_count + 1 from by have := hInv.count_pos; omega,
                      show be ≤ s2.node_count + 1 from by omega⟩
                  · exact ⟨show 2 ≤ s2.node_count + 1 from by have := hInv2.count_pos; omega,
                      show s.node_count + 1 ≤ s2.node_count + 1 from by omega⟩
                  · cases hfalse
                · show s.node_count ≤ s2.node_count + 1
                  omega
              | some u =>
                simp only [addEdge] at h
                rw [show (newNodeId ⟨s2.node_count, s2.last_node, s2.merge_stack, s2.nodes,
                    s2.edges ++ [⟨s.node_count + 1, s.node_count + 1 + 1, some "true"⟩]⟩) =
                    (s2.node_count + 1, ⟨s2.node_count + 1, s2.last_node, s2.merge_stack, s2.nodes,
                     s2.edges ++ [⟨s.node_count + 1, s.node_count + 1 + 1, some "true"⟩]⟩) from rfl] at h
                cases hfu : formatter f u with
                | error e => rw [hfu] at h; simp at h
                | ok ul =>
                rw [hfu] at h
                simp only [addNode, addEdgeFrom] at h
                cases hbe : s2.last_node with
                | none => rw [hbe] at h; simp at h
                | some be =>
                rw [hbe] at h
                simp only [] at h
                have hbeLe : be ≤ s2.node_count := hInv2.2.2.2 be hbe
                simp only [addEdge] at h
                rw [show mkInvisibleMerge ⟨s2.node_count + 1, some be, s2.merge_stack,
                    s2.nodes ++ [⟨s2.node_count + 1, ul, "box"⟩],
                    ((s2.edges ++ [⟨s.node_count + 1, s.node_count + 1 + 1, some "true"⟩]) ++
                      [⟨be, s2.node_count + 1, none⟩]) ++
                      [⟨s2.node_count + 1, s.node_count + 1, none⟩]⟩ = (s2.node_count + 1 + 1,
                    ⟨s2.node_count + 1 + 1, some be, s2.merge_stack,
                     (s2.nodes ++ [⟨s2.node_count + 1, ul, "box"⟩]) ++
                       [⟨s2.node_count + 1 + 1, "", "point"⟩],
                     ((s2.edges ++ [⟨s.node_count + 1, s.node_count + 1 + 1, some "true"⟩]) ++
                       [⟨be, s2.node_count + 1, none⟩]) ++
                       [⟨s2.node_count + 1, s.node_count + 1, none⟩]⟩) from rfl] at h
                simp only [Except.ok.injEq] at h
                subst h
                constructor
                · refine inv_ext hInv2 (s2.node_count + 1 + 1) (some (s2.node_count + 1 + 1))
                    s2.merge_stack
                    [⟨s2.node_count + 1, ul, "box"⟩, ⟨s2.node_count + 1 + 1, "", "point"⟩]
                    [⟨s.node_count + 1, s.node_count + 1 + 1, some "true"⟩,
                     ⟨be, s2.node_count + 1, none⟩,
                     ⟨s2.node_count + 1, s.node_count + 1, none⟩,
                     ⟨s.node_count + 1, s2.node_count + 1 + 1, some "false"⟩] _ _
                    (by simp [List.append_assoc]) (by simp [List.append_assoc]) (by omega)
                    (by intro n hn; simp at hn; rcases hn with rfl | rfl <;> rfl) ?_
                    (by intro p hp; injection hp with hp; omega)
                  intro e he
                  simp only [List.mem_cons, List.mem_singleton] at he
                  rcases he with rfl | rfl | rfl | rfl | hfalse
                  · exact ⟨show 2 ≤ s.node_count + 1 + 1 from by omega,
                      show s.node_count + 1 ≤ s2.node_count + 1 + 1 from by omega⟩
                  · exact ⟨show 2 ≤ s2.node_count + 1 from by have := hInv2.count_pos; omega,
                      show be ≤ s2.node_count + 1 + 1 from by omega⟩
                  · exact ⟨show 2 ≤ s.node_count + 1 from by have := hInv.count_pos; omega,
                      show s2.node_count + 1 ≤ s2.node_count + 1 + 1 from by omega⟩
                  · exact ⟨show 2 ≤ s2.node_count + 1 + 1 from by omega,
                      show s.node_count + 1 ≤ s2.node_count + 1 + 1 from by omega⟩
                  · cases hfalse
                · show s.node_count ≤ s2.node_count + 1 + 1
                  omega
        | some i =>
          try simp only [] at h
          cases hXA : processNode f i s with
          | error e => rw [hXA] at h; simp at h
          | ok sA =>
          rw [hXA] at h
          try simp only [] at h
          obtain ⟨hInvA, hleA⟩ := ihN i s sA hXA hInv
          rw [show (newNodeId sA) = (sA.node_count + 1, {sA with node_count := sA.node_count + 1}) from rfl] at h
          try simp only [] at h
          cases hc1 : childElem node 1 with
          | error e => rw [hc1] at h; simp at h
          | ok c1e =>
          rw [hc1] at h
          try simp only [] at h
          cases c1e with
          | none =>
            try simp only [] at h
            simp only [addNode, setLast] at h
            try simp only [] at h
            cases hlX : sA.last_node with
            | none =>
              rw [hlX] at h
              try simp only [] at h
              cases hc3 : childNode node 3 with
              | error e => rw [hc3] at h; simp at h
              | ok c3 =>
              rw [hc3] at h
              try simp only [] at h
              cases hp2 : processNode f c3
                  ⟨sA.node_count + 1, none, sA.merge_stack,
                   sA.nodes ++ [⟨sA.node_count + 1, "for_cond (" ++ "" ++ ")", "diamond"⟩],
                   sA.edges⟩ with
              | error e => rw [hp2] at h; simp at h
              | ok s2 =>
              rw [hp2] at h
              try simp only [] at h
              have hAmid : Inv ⟨sA.node_count + 1, none, sA.merge_stack,
                  sA.nodes ++ [⟨sA.node_count + 1, "for_cond (" ++ "" ++ ")", "diamond"⟩],
                  sA.edges⟩ :=
                inv_ext hInvA (sA.node_count + 1) none sA.merge_stack
                  [⟨sA.node_count + 1, "for_cond (" ++ "" ++ ")", "diamond"⟩] [] _ _
                  rfl (by simp) (by omega) (by simp) (by simp)
                  (by intro p hp; exact absurd hp (by simp))
              obtain ⟨hInv2, hle2⟩ := ihN c3 _ s2 hp2 hAmid
              simp only [FC.node_count] at hle2
              cases hup : childElem node 2 with
              | error e => rw [hup] at h; simp at h
              | ok updOpt =>
              rw [hup] at h
              try simp only [] at h
              cases updOpt with
              | none =>
                simp only [addEdge, addEdgeFrom] at h
                cases hbe : s2.last_node with
                | none => rw [hbe] at h; simp at h
                | some be =>
                rw [hbe] at h
                simp only [] at h
                have hbeLe : be ≤ s2.node_count := hInv2.2.2.2 be hbe
                rw [show mkInvisibleMerge ⟨s2.node_count, some be, s2.merge_stack, s2.nodes,
                    (s2.edges ++ [⟨sA.node_count + 1, sA.node_count + 1 + 1, some "true"⟩]) ++
                      [⟨be, sA.node_count + 1, none⟩]⟩ = (s2.node_count + 1,
                    ⟨s2.node_count + 1, some be, s2.merge_stack,
                     s2.nodes ++ [⟨s2.node_count + 1, "", "point"⟩],
                     (s2.edges ++ [⟨sA.node_count + 1, sA.node_count + 1 + 1, some "true"⟩]) ++
                       [⟨be, sA.node_count + 1, none⟩]⟩) from rfl] at h
                simp only [Except.ok.injEq] at h
                subst h
                constructor
                · refine inv_ext hInv2 (s2.node_count + 1) (some (s2.node_count + 1))
                    s2.merge_stack [⟨s2.node_count + 1, "", "point"⟩]
                    [⟨sA.node_count + 1, sA.node_count + 1 + 1, some "true"⟩,
                     ⟨be, sA.node_count + 1, none⟩,
                     ⟨sA.node_count + 1, s2.node_count + 1, some "false"⟩] _ _
                    rfl (by simp [List.append_assoc]) (by omega) (by simp) ?_
                    (by intro p hp; injection hp with hp; omega)
                  intro e he
                  simp only [List.mem_cons, List.mem_singleton] at he
                  rcases he with rfl | rfl | rfl | hfalse
                  · exact ⟨show 2 ≤ sA.node_count + 1 + 1 from by omega,
                      show sA.node_count + 1 ≤ s2.node_count + 1 from by omega⟩
                  · exact ⟨show 2 ≤ sA.node_count + 1 from by have := hInvA.count_pos; omega,
                      show be ≤ s2.node_count + 1 from by omega⟩
                  · exact ⟨show 2 ≤ s2.node_count + 1 from by have := hInv2.count_pos; omega,
                      show sA.node_count + 1 ≤ s2.node_count + 1 from by omega⟩
                  · cases hfalse
                · show s.node_count ≤ s2.node_count + 1
                  omega
              | some u =>
                simp only [addEdge] at h
                rw [show (newNodeId ⟨s2.node_count, s2.last_node, s2.merge_stack, s2.nodes,
                    s2.edges ++ [⟨sA.node_count + 1, sA.node_count + 1 + 1, some "true"⟩]⟩) =
                    (s2.node_count + 1, ⟨s2.node_count + 1, s2.last_node, s2.merge_stack, s2.nodes,
                     s2.edges ++ [⟨sA.node_count + 1, sA.node_count + 1 + 1, some "true"⟩]⟩) from rfl] at h
                cases hfu : formatter f u with
                | error e => rw [hfu] at h; simp at h
                | ok ul =>
                rw [hfu] at h
                simp only [addNode, addEdgeFrom] at h
                cases hbe : s2.last_node with
                | none => rw [hbe] at h; simp at h
                | some be =>
                rw [hbe] at h
                simp only [] at h
                have hbeLe : be ≤ s2.node_count := hInv2.2.2.2 be hbe
                simp only [addEdge] at h
                rw [show mkInvisibleMerge ⟨s2.node_count + 1, some be, s2.merge_stack,
                    s2.nodes ++ [⟨s2.node_count + 1, ul, "box"⟩],
                    ((s2.edges ++ [⟨sA.node_count + 1, sA.node_count + 1 + 1, some "true"⟩]) ++
                      [⟨be, s2.node_count + 1, none⟩]) ++
                      [⟨s2.node_count + 1, sA.node_count + 1, none⟩]⟩ = (s2.node_count + 1 + 1,
                    ⟨s2.node_count + 1 + 1, some be, s2.merge_stack,
                     (s2.nodes ++ [⟨s2.node_count + 1, ul, "box"⟩]) ++
                       [⟨s2.node_count + 1 + 1, "", "point"⟩],
                     ((s2.edges ++ [⟨sA.node_count + 1, sA.node_count + 1 + 1, some "true"⟩]) ++
                       [⟨be, s2.node_count + 1, none⟩]) ++
                       [⟨s2.node_count + 1, sA.node_count + 1, none⟩]⟩) from rfl] at h
                simp only [Except.ok.injEq] at h
                subst h
                constructor
                · refine inv_ext hInv2 (s2.node_count + 1 + 1) (some (s2.node_count + 1 + 1))
                    s2.merge_stack
                    [⟨s2.node_count + 1, ul, "box"⟩, ⟨s2.node_count + 1 + 1, "", "point"⟩]
                    [⟨sA.node_count + 1, sA.node_count + 1 + 1, some "true"⟩,
                     ⟨be, s2.node_count + 1, none⟩,
                     ⟨s2.node_count + 1, sA.node_count + 1, none⟩,
                     ⟨sA.node_count + 1, s2.node_count + 1 + 1, some "false"⟩] _ _
                    (by simp [List.append_assoc]) (by simp [List.append_assoc]) (by omega)
                    (by intro n hn; simp at hn; rcases hn with rfl | rfl <;> rfl) ?_
                    (by intro p hp; injection hp with hp; omega)
                  intro e he
                  simp only [List.mem_cons, List.mem_singleton] at he
                  rcases he with rfl | rfl | rfl | rfl | hfalse
                  · exact ⟨show 2 ≤ sA.node_count + 1 + 1 from by omega,
                      show sA.node_count + 1 ≤ s2.node_count + 1 + 1 from by omega⟩
                  · exact ⟨show 2 ≤ s2.node_count + 1 from by have := hInv2.count_pos; omega,
                      show be ≤ s2.node_count + 1 + 1 from by omega⟩
                  · exact ⟨show 2 ≤ sA.node_count + 1 from by have := hInvA.count_pos; omega,
                      show s2.node_count + 1 ≤ s2.node_count + 1 + 1 from by omega⟩
                  · exact ⟨show 2 ≤ s2.node_count + 1 + 1 from by omega,
                      show sA.node_count + 1 ≤ s2.node_count + 1 + 1 from by omega⟩
                  · cases hfalse
                · show s.node_count ≤ s2.node_count + 1 + 1
                  omega
            | some lstX =>
              rw [hlX] at h
              try simp only [addEdge] at h
              have hlstLe : lstX ≤ sA.node_count := hInvA.2.2.2 lstX hlX
              cases hc3 : childNode node 3 with
              | error e => rw [hc3] at h; simp at h
              | ok c3 =>
              rw [hc3] at h
              try simp only [] at h
              cases hp2 : processNode f c3
                  ⟨sA.node_count + 1, none, sA.merge_stack,
                   sA.nodes ++ [⟨sA.node_count + 1, "for_cond (" ++ "" ++ ")", "diamond"⟩],
                   sA.edges ++ [⟨lstX, sA.node_count + 1, none⟩]⟩ with
              | error e => rw [hp2] at h; simp at h
              | ok s2 =>
              rw [hp2] at h
              try simp only [] at h
              have hAmid : Inv ⟨sA.node_count + 1, none, sA.merge_stack,
                  sA.nodes ++ [⟨sA.node_count + 1, "for_cond (" ++ "" ++ ")", "diamond"⟩],
                  sA.edges ++ [⟨lstX, sA.node_count + 1, none⟩]⟩ := by
                refine inv_ext hInvA (sA.node_count + 1) none sA.merge_stack
                  [⟨sA.node_count + 1, "for_cond (" ++ "" ++ ")", "diamond"⟩]
                  [⟨lstX, sA.node_count + 1, none⟩] _ _
                  rfl rfl (by omega) (by simp) ?_
                  (by intro p hp; exact absurd hp (by simp))
                intro e he
                rw [List.mem_singleton] at he
                subst he
                exact ⟨show 2 ≤ sA.node_count + 1 from by have := hInvA.count_pos; omega,
                  show lstX ≤ sA.node_count + 1 from by omega⟩
              obtain ⟨hInv2, hle2⟩ := ihN c3 _ s2 hp2 hAmid
              simp only [FC.node_count] at hle2
              cases hup : childElem node 2 with
              | error e => rw [hup] at h; simp at h
              | ok updOpt =>
              rw [hup] at h
              try simp only [] at h
              cases updOpt with
              | none =>
                simp only [addEdge, addEdgeFrom] at h
                cases hbe : s2.last_node with
                | none => rw [hbe] at h; simp at h
                | some be =>
                rw [hbe] at h
                simp only [] at h
                have hbeLe : be ≤ s2.node_count := hInv2.2.2.2 be hbe
                rw [show mkInvisibleMerge ⟨s2.node_count, some be, s2.merge_stack, s2.nodes,
                    (s2.edges ++ [⟨sA.node_count + 1, sA.node_count + 1 + 1, some "true"⟩]) ++
                      [⟨be, sA.node_count + 1, none⟩]⟩ = (s2.node_count + 1,
                    ⟨s2.node_count + 1, some be, s2.merge_stack,
                     s2.nodes ++ [⟨s2.node_count + 1, "", "point"⟩],
                     (s2.edges ++ [⟨sA.node_count + 1, sA.node_count + 1 + 1, some "true"⟩]) ++
                       [⟨be, sA.node_count + 1, none⟩]⟩) from rfl] at h
                simp only [Except.ok.injEq] at h
                subst h
                constructor
                · refine inv_ext hInv2 (s2.node_count + 1) (some (s2.node_count + 1))
                    s2.merge_stack [⟨s2.node_count + 1, "", "point"⟩]
                    [⟨sA.node_count + 1, sA.node_count + 1 + 1, some "true"⟩,
                     ⟨be, sA.node_count + 1, none⟩,
                     ⟨sA.node_count + 1, s2.node_count + 1, some "false"⟩] _ _
                    rfl (by simp [List.append_assoc]) (by omega) (by simp) ?_
                    (by intro p hp; injection hp with hp; omega)
                  intro e he
                  simp only [List.mem_cons, List.mem_singleton] at he
                  rcases he with rfl | rfl | rfl | hfalse
                  · exact ⟨show 2 ≤ sA.node_count + 1 + 1 from by omega,
                      show sA.node_count + 1 ≤ s2.node_count + 1 from by omega⟩
                  · exact ⟨show 2 ≤ sA.node_count + 1 from by have := hInvA.count_pos; omega,
                      show be ≤ s2.node_count + 1 from by omega⟩
                  · exact ⟨show 2 ≤ s2.node_count + 1 from by have := hInv2.count_pos; omega,
                      show sA.node_count + 1 ≤ s2.node_count + 1 from by omega⟩
                  · cases hfalse
                · show s.node_count ≤ s2.node_count + 1
                  omega
              | some u =>
                simp only [addEdge] at h
                rw [show (newNodeId ⟨s2.node_count, s2.last_node, s2.merge_stack, s2.nodes,
                    s2.edges ++ [⟨sA.node_count + 1, sA.node_count + 1 + 1, some "true"⟩]⟩) =
                    (s2.node_count + 1, ⟨s2.node_count + 1, s2.last_node, s2.merge_stack, s2.nodes,
                     s2.edges ++ [⟨sA.node_count + 1, sA.node_count + 1 + 1, some "true"⟩]⟩) from rfl] at h
                cases hfu : formatter f u with
                | error e => rw [hfu] at h; simp at h
                | ok ul =>
                rw [hfu] at h
                simp only [addNode, addEdgeFrom] at h
                cases hbe : s2.last_node with
                | none => rw [hbe] at h; simp at h
                | some be =>
                rw [hbe] at h
                simp only [] at h
                have hbeLe : be ≤ s2.node_count := hInv2.2.2.2 be hbe
                simp only [addEdge] at h
                rw [show mkInvisibleMerge ⟨s2.node_count + 1, some be, s2.merge_stack,
                    s2.nodes ++ [⟨s2.node_count + 1, ul, "box"⟩],
                    ((s2.edges ++ [⟨sA.node_count + 1, sA.node_count + 1 + 1, some "true"⟩]) ++
                      [⟨be, s2.node_count + 1, none⟩]) ++
                      [⟨s2.node_count + 1, sA.node_count + 1, none⟩]⟩ = (s2.node_count + 1 + 1,
                    ⟨s2.node_count + 1 + 1, some be, s2.merge_stack,
                     (s2.nodes ++ [⟨s2.node_count + 1, ul, "box"⟩]) ++
                       [⟨s2.node_count + 1 + 1, "", "point"⟩],
                     ((s2.edges ++ [⟨sA.node_count + 1, sA.node_count + 1 + 1, some "true"⟩]) ++
                       [⟨be, s2.node_count + 1, none⟩]) ++
                       [⟨s2.node_count + 1, sA.node_count + 1, none⟩]⟩) from rfl] at h
                simp only [Except.ok.injEq] at h
                subst h
                constructor
                · refine inv_ext hInv2 (s2.node_count + 1 + 1) (some (s2.node_count + 1 + 1))
                    s2.merge_stack
                    [⟨s2.node_count + 1, ul, "box"⟩, ⟨s2.node_count + 1 + 1, "", "point"⟩]
                    [⟨sA.node_count + 1, sA.node_count + 1 + 1, some "true"⟩,
                     ⟨be, s2.node_count + 1, none⟩,
                     ⟨s2.node_count + 1, sA.node_count + 1, none⟩,
                     ⟨sA.node_count + 1, s2.node_count + 1 + 1, some "false"⟩] _ _
                    (by simp [List.append_assoc]) (by simp [List.append_assoc]) (by omega)
                    (by intro n hn; simp at hn; rcases hn with rfl | rfl <;> rfl) ?_
                    (by intro p hp; injection hp with hp; omega)
                  intro e he
                  simp only [List.mem_cons, List.mem_singleton] at he
                  rcases he with rfl | rfl | rfl | rfl | hfalse
                  · exact ⟨show 2 ≤ sA.node_count + 1 + 1 from by omega,
                      show sA.node_count + 1 ≤ s2.node_count + 1 + 1 from by omega⟩
                  · exact ⟨show 2 ≤ s2.node_count + 1 from by have := hInv2.count_pos; omega,
                      show be ≤ s2.node_count + 1 + 1 from by omega⟩
                  · exact ⟨show 2 ≤ sA.node_count + 1 from by have := hInvA.count_pos; omega,
                      show s2.node_count + 1 ≤ s2.node_count + 1 + 1 from by omega⟩
                  · exact ⟨show 2 ≤ s2.node_count + 1 + 1 from by omega,
                      show sA.node_count + 1 ≤ s2.node_count + 1 + 1 from by omega⟩
                  · cases hfalse
                · show s.node_count ≤ s2.node_count + 1 + 1
                  omega
          | some c1v =>
            try simp only [] at h
            cases hex : exprToStr f (some c1v) with
            | error e => rw [hex] at h; simp at h
            | ok condlbl =>
            rw [hex] at h
            try simp only [] at h
            simp only [addNode, setLast] at h
            try simp only [] at h
            cases hlX : sA.last_node with
            | none =>
              rw [hlX] at h
              try simp only [] at h
              cases hc3 : childNode node 3 with
              | error e => rw [hc3] at h; simp at h
              | ok c3 =>
              rw [hc3] at h
              try simp only [] at h
              cases hp2 : processNode f c3
                  ⟨sA.node_count + 1, none, sA.merge_stack,
                   sA.nodes ++ [⟨sA.node_count + 1, "for_cond (" ++ condlbl ++ ")", "diamond"⟩],
                   sA.edges⟩ with
              | error e => rw [hp2] at h; simp at h
              | ok s2 =>
              rw [hp2] at h
              try simp only [] at h
              have hAmid : Inv ⟨sA.node_count + 1, none, sA.merge_stack,
                  sA.nodes ++ [⟨sA.node_count + 1, "for_cond (" ++ condlbl ++ ")", "diamond"⟩],
                  sA.edges⟩ :=
                inv_ext hInvA (sA.node_count + 1) none sA.merge_stack
                  [⟨sA.node_count + 1, "for_cond (" ++ condlbl ++ ")", "diamond"⟩] [] _ _
                  rfl (by simp) (by omega) (by simp) (by simp)
                  (by intro p hp; exact absurd hp (by simp))
              obtain ⟨hInv2, hle2⟩ := ihN c3 _ s2 hp2 hAmid
              simp only [FC.node_count] at hle2
              cases hup : childElem node 2 with
              | error e => rw [hup] at h; simp at h
              | ok updOpt =>
              rw [hup] at h
              try simp only [] at h
              cases updOpt with
              | none =>
                simp only [addEdge, addEdgeFrom] at h
                cases hbe : s2.last_node with
                | none => rw [hbe] at h; simp at h
                | some be =>
                rw [hbe] at h
                simp only [] at h
                have hbeLe : be ≤ s2.node_count := hInv2.2.2.2 be hbe
                rw [show mkInvisibleMerge ⟨s2.node_count, some be, s2.merge_stack, s2.nodes,
                    (s2.edges ++ [⟨sA.node_count + 1, sA.node_count + 1 + 1, some "true"⟩]) ++
                      [⟨be, sA.node_count + 1, none⟩]⟩ = (s2.node_count + 1,
                    ⟨s2.node_count + 1, some be, s2.merge_stack,
                     s2.nodes ++ [⟨s2.node_count + 1, "", "point"⟩],
                     (s2.edges ++ [⟨sA.node_count + 1, sA.node_count + 1 + 1, some "true"⟩]) ++
                       [⟨be, sA.node_count + 1, none⟩]⟩) from rfl] at h
                simp only [Except.ok.injEq] at h
                subst h
                constructor
                · refine inv_ext hInv2 (s2.node_count + 1) (some (s2.node_count + 1))
                    s2.merge_stack [⟨s2.node_count + 1, "", "point"⟩]
                    [⟨sA.node_count + 1, sA.node_count + 1 + 1, some "true"⟩,
                     ⟨be, sA.node_count + 1, none⟩,
                     ⟨sA.node_count + 1, s2.node_count + 1, some "false"⟩] _ _
                    rfl (by simp [List.append_assoc]) (by omega) (by simp) ?_
                    (by intro p hp; injection hp with hp; omega)
                  intro e he
                  simp only [List.mem_cons, List.mem_singleton] at he
                  rcases he with rfl | rfl | rfl | hfalse
                  · exact ⟨show 2 ≤ sA.node_count + 1 + 1 from by omega,
                      show sA.node_count + 1 ≤ s2.node_count + 1 from by omega⟩
                  · exact ⟨show 2 ≤ sA.node_count + 1 from by have := hInvA.count_pos; omega,
                      show be ≤ s2.node_count + 1 from by omega⟩
                  · exact ⟨show 2 ≤ s2.node_count + 1 from by have := hInv2.count_pos; omega,
                      show sA.node_count + 1 ≤ s2.node_count + 1 from by omega⟩
                  · cases hfalse
                · show s.node_count ≤ s2.node_count + 1
                  omega
              | some u =>
                simp only [addEdge] at h
                rw [show (newNodeId ⟨s2.node_count, s2.last_node, s2.merge_stack, s2.nodes,
                    s2.edges ++ [⟨sA.node_count + 1, sA.node_count + 1 + 1, some "true"⟩]⟩) =
                    (s2.node_count + 1, ⟨s2.node_count + 1, s2.last_node, s2.merge_stack, s2.nodes,
                     s2.edges ++ [⟨sA.node_count + 1, sA.node_count + 1 + 1, some "true"⟩]⟩) from rfl] at h
                cases hfu : formatter f u with
                | error e => rw [hfu] at h; simp at h
                | ok ul =>
                rw [hfu] at h
                simp only [addNode, addEdgeFrom] at h
                cases hbe : s2.last_node with
                | none => rw [hbe] at h; simp at h
                | some be =>
                rw [hbe] at h
                simp only [] at h
                have hbeLe : be ≤ s2.node_count := hInv2.2.2.2 be hbe
                simp only [addEdge] at h
                rw [show mkInvisibleMerge ⟨s2.node_count + 1, some be, s2.merge_stack,
                    s2.nodes ++ [⟨s2.node_count + 1, ul, "box"⟩],
                    ((s2.edges ++ [⟨sA.node_count + 1, sA.node_count + 1 + 1, some "true"⟩]) ++
                      [⟨be, s2.node_count + 1, none⟩]) ++
                      [⟨s2.node_count + 1, sA.node_count + 1, none⟩]⟩ = (s2.node_count + 1 + 1,
                    ⟨s2.node_count + 1 + 1, some be, s2.merge_stack,
                     (s2.nodes ++ [⟨s2.node_count + 1, ul, "box"⟩]) ++
                       [⟨s2.node_count + 1 + 1, "", "point"⟩],
                     ((s2.edges ++ [⟨sA.node_count + 1, sA.node_count + 1 + 1, some "true"⟩]) ++
                       [⟨be, s2.node_count + 1, none⟩]) ++
                       [⟨s2.node_count + 1, sA.node_count + 1, none⟩]⟩) from rfl] at h
                simp only [Except.ok.injEq] at h
                subst h
                constructor
                · refine inv_ext hInv2 (s2.node_count + 1 + 1) (some (s2.node_count + 1 + 1))
                    s2.merge_stack
                    [⟨s2.node_count + 1, ul, "box"⟩, ⟨s2.node_count + 1 + 1, "", "point"⟩]
                    [⟨sA.node_count + 1, sA.node_count + 1 + 1, some "true"⟩,
                     ⟨be, s2.node_count + 1, none⟩,
                     ⟨s2.node_count + 1, sA.node_count + 1, none⟩,
                     ⟨sA.node_count + 1, s2.node_count + 1 + 1, some "false"⟩] _ _
                    (by simp [List.append_assoc]) (by simp [List.append_assoc]) (by omega)
                    (by intro n hn; simp at hn; rcases hn with rfl | rfl <;> rfl) ?_
                    (by intro p hp; injection hp with hp; omega)
                  intro e he
                  simp only [List.mem_cons, List.mem_singleton] at he
                  rcases he with rfl | rfl | rfl | rfl | hfalse
                  · exact ⟨show 2 ≤ sA.node_count + 1 + 1 from by omega,
                      show sA.node_count + 1 ≤ s2.node_count + 1 + 1 from by omega⟩
                  · exact ⟨show 2 ≤ s2.node_count + 1 from by have := hInv2.count_pos; omega,
                      show be ≤ s2.node_count + 1 + 1 from by omega⟩
                  · exact ⟨show 2 ≤ sA.node_count + 1 from by have := hInvA.count_pos; omega,
                      show s2.node_count + 1 ≤ s2.node_count + 1 + 1 from by omega⟩
                  · exact ⟨show 2 ≤ s2.node_count + 1 + 1 from by omega,
                      show sA.node_count + 1 ≤ s2.node_count + 1 + 1 from by omega⟩
                  · cases hfalse
                · show s.node_count ≤ s2.node_count + 1 + 1
                  omega
            | some lstX =>
              rw [hlX] at h
              try simp only [addEdge] at h
              have hlstLe : lstX ≤ sA.node_count := hInvA.2.2.2 lstX hlX
              cases hc3 : childNode node 3 with
              | error e => rw [hc3] at h; simp at h
              | ok c3 =>
              rw [hc3] at h
              try simp only [] at h
              cases hp2 : processNode f c3
                  ⟨sA.node_count + 1, none, sA.merge_stack,
                   sA.nodes ++ [⟨sA.node_count + 1, "for_cond (" ++ condlbl ++ ")", "diamond"⟩],
                   sA.edges ++ [⟨lstX, sA.node_count + 1, none⟩]⟩ with
              | error e => rw [hp2] at h; simp at h
              | ok s2 =>
              rw [hp2] at h
              try simp only [] at h
              have hAmid : Inv ⟨sA.node_count + 1, none, sA.merge_stack,
                  sA.nodes ++ [⟨sA.node_count + 1, "for_cond (" ++ condlbl ++ ")", "diamond"⟩],
                  sA.edges ++ [⟨lstX, sA.node_count + 1, none⟩]⟩ := by
                refine inv_ext hInvA (sA.node_count + 1) none sA.merge_stack
                  [⟨sA.node_count + 1, "for_cond (" ++ condlbl ++ ")", "diamond"⟩]
                  [⟨lstX, sA.node_count + 1, none⟩] _ _
                  rfl rfl (by omega) (by simp) ?_
                  (by intro p hp; exact absurd hp (by simp))
                intro e he
                rw [List.mem_singleton] at he
                subst he
                exact ⟨show 2 ≤ sA.node_count + 1 from by have := hInvA.count_pos; omega,
                  show lstX ≤ sA.node_count + 1 from by omega⟩
              obtain ⟨hInv2, hle2⟩ := ihN c3 _ s2 hp2 hAmid
              simp only [FC.node_count] at hle2
              cases hup : childElem node 2 with
              | error e => rw [hup] at h; simp at h
              | ok updOpt =>
              rw [hup] at h
              try simp only [] at h
              cases updOpt with
              | none =>
                simp only [addEdge, addEdgeFrom] at h
                cases hbe : s2.last_node with
                | none => rw [hbe] at h; simp at h
                | some be =>
                rw [hbe] at h
                simp only [] at h
                have hbeLe : be ≤ s2.node_count := hInv2.2.2.2 be hbe
                rw [show mkInvisibleMerge ⟨s2.node_count, some be, s2.merge_stack, s2.nodes,
                    (s2.edges ++ [⟨sA.node_count + 1, sA.node_count + 1 + 1, some "true"⟩]) ++
                      [⟨be, sA.node_count + 1, none⟩]⟩ = (s2.node_count + 1,
                    ⟨s2.node_count + 1, some be, s2.merge_stack,
                     s2.nodes ++ [⟨s2.node_count + 1, "", "point"⟩],
                     (s2.edges ++ [⟨sA.node_count + 1, sA.node_count + 1 + 1, some "true"⟩]) ++
                       [⟨be, sA.node_count + 1, none⟩]⟩) from rfl] at h
                simp only [Except.ok.injEq] at h
                subst h
                constructor
                · refine inv_ext hInv2 (s2.node_count + 1) (some (s2.node_count + 1))
                    s2.merge_stack [⟨s2.node_count + 1, "", "point"⟩]
                    [⟨sA.node_count + 1, sA.node_count + 1 + 1, some "true"⟩,
                     ⟨be, sA.node_count + 1, none⟩,
                     ⟨sA.node_count + 1, s2.node_count + 1, some "false"⟩] _ _
                    rfl (by simp [List.append_assoc]) (by omega) (by simp) ?_
                    (by intro p hp; injection hp with hp; omega)
                  intro e he
                  simp only [List.mem_cons, List.mem_singleton] at he
                  rcases he with rfl | rfl | rfl | hfalse
                  · exact ⟨show 2 ≤ sA.node_count + 1 + 1 from by omega,
                      show sA.node_count + 1 ≤ s2.node_count + 1 from by omega⟩
                  · exact ⟨show 2 ≤ sA.node_count + 1 from by have := hInvA.count_pos; omega,
                      show be ≤ s2.node_count + 1 from by omega⟩
                  · exact ⟨show 2 ≤ s2.node_count + 1 from by have := hInv2.count_pos; omega,
                      show sA.node_count + 1 ≤ s2.node_count + 1 from by omega⟩
                  · cases hfalse
                · show s.node_count ≤ s2.node_count + 1
                  omega
              | some u =>
                simp only [addEdge] at h
                rw [show (newNodeId ⟨s2.node_count, s2.last_node, s2.merge_stack, s2.nodes,
                    s2.edges ++ [⟨sA.node_count + 1, sA.node_count + 1 + 1, some "true"⟩]⟩) =
                    (s2.node_count + 1, ⟨s2.node_count + 1, s2.last_node, s2.merge_stack, s2.nodes,
                     s2.edges ++ [⟨sA.node_count + 1, sA.node_count + 1 + 1, some "true"⟩]⟩) from rfl] at h
                cases hfu : formatter f u with
                | error e => rw [hfu] at h; simp at h
                | ok ul =>
                rw [hfu] at h
                simp only [addNode, addEdgeFrom] at h
                cases hbe : s2.last_node with
                | none => rw [hbe] at h; simp at h
                | some be =>
                rw [hbe] at h
                simp only [] at h
                have hbeLe : be ≤ s2.node_count := hInv2.2.2.2 be hbe
                simp only [addEdge] at h
                rw [show mkInvisibleMerge ⟨s2.node_count + 1, some be, s2.merge_stack,
                    s2.nodes ++ [⟨s2.node_count + 1, ul, "box"⟩],
                    ((s2.edges ++ [⟨sA.node_count + 1, sA.node_count + 1 + 1, some "true"⟩]) ++
                      [⟨be, s2.node_count + 1, none⟩]) ++
                      [⟨s2.node_count + 1, sA.node_count + 1, none⟩]⟩ = (s2.node_count + 1 + 1,
                    ⟨s2.node_count + 1 + 1, some be, s2.merge_stack,
                     (s2.nodes ++ [⟨s2.node_count + 1, ul, "box"⟩]) ++
                       [⟨s2.node_count + 1 + 1, "", "point"⟩],
                     ((s2.edges ++ [⟨sA.node_count + 1, sA.node_count + 1 + 1, some "true"⟩]) ++
                       [⟨be, s2.node_count + 1, none⟩]) ++
                       [⟨s2.node_count + 1, sA.node_count + 1, none⟩]⟩) from rfl] at h
                simp only [Except.ok.injEq] at h
                subst h
                constructor
                · refine inv_ext hInv2 (s2.node_count + 1 + 1) (some (s2.node_count + 1 + 1))
                    s2.merge_stack
                    [⟨s2.node_count + 1, ul, "box"⟩, ⟨s2.node_count + 1 + 1, "", "point"⟩]
                    [⟨sA.node_count + 1, sA.node_count + 1 + 1, some "true"⟩,
                     ⟨be, s2.node_count + 1, none⟩,
                     ⟨s2.node_count + 1, sA.node_count + 1, none⟩,
                     ⟨sA.node_count + 1, s2.node_count + 1 + 1, some "false"⟩] _ _
                    (by simp [List.append_assoc]) (by simp [List.append_assoc]) (by omega)
                    (by intro n hn; simp at hn; rcases hn with rfl | rfl <;> rfl) ?_
                    (by intro p hp; injection hp with hp; omega)
                  intro e he
                  simp only [List.mem_cons, List.mem_singleton] at he
                  rcases he with rfl | rfl | rfl | rfl | hfalse
                  · exact ⟨show 2 ≤ sA.node_count + 1 + 1 from by omega,
                      show sA.node_count + 1 ≤ s2.node_count + 1 + 1 from by omega⟩
                  · exact ⟨show 2 ≤ s2.node_count + 1 from by have := hInv2.count_pos; omega,
                      show be ≤ s2.node_count + 1 + 1 from by omega⟩
                  · exact ⟨show 2 ≤ sA.node_count + 1 from by have := hInvA.count_pos; omega,
                      show s2.node_count + 1 ≤ s2.node_count + 1 + 1 from by omega⟩
                  · exact ⟨show 2 ≤ s2.node_count + 1 + 1 from by omega,
                      show sA.node_count + 1 ≤ s2.node_count + 1 + 1 from by omega⟩
                  · cases hfalse
                · show s.node_count ≤ s2.node_count + 1 + 1
                  omega
      · -- do_while loops
        cases hc0 : childNode node 0 with
        | error e => rw [hc0] at h; simp [bind, Except.bind] at h
        | ok c0 =>
        rw [hc0] at h
        simp only [bind, Except.bind] at h
        cases hp1 : processNode f c0 s with
        | error e => rw [hp1] at h; simp at h
        | ok s1 =>
        rw [hp1] at h
        simp only [] at h
        obtain ⟨hInv1, hle1⟩ := ihN c0 s s1 hp1 hInv
        rw [show (newNodeId s1) = (s1.node_count + 1, {s1 with node_count := s1.node_count + 1}) from rfl] at h
        cases hce : childElem node 1 with
        | error e => rw [hce] at h; simp at h
        | ok c1e =>
        rw [hce] at h
        simp only [] at h
        cases hex : exprToStr f c1e with
        | error e => rw [hex] at h; simp at h
        | ok condlbl =>
        rw [hex] at h
        simp only [addNode, addEdgeFrom, addEdge] at h
        cases hbe : s1.last_node with
        | none => rw [hbe] at h; simp at h
        | some be =>
        rw [hbe] at h
        simp only [] at h
        have hbeLe : be ≤ s1.node_count := hInv1.2.2.2 be hbe
        rw [show mkInvisibleMerge ⟨s1.node_count + 1, some be, s1.merge_stack,
            s1.nodes ++ [⟨s1.node_count + 1, "while (" ++ condlbl ++ ")", "diamond"⟩],
            (s1.edges ++ [⟨be, s1.node_count + 1, none⟩]) ++
              [⟨s1.node_count + 1, s.node_count + 1, some "true"⟩]⟩ = (s1.node_count + 1 + 1,
            ⟨s1.node_count + 1 + 1, some be, s1.merge_stack,
             (s1.nodes ++ [⟨s1.node_count + 1, "while (" ++ condlbl ++ ")", "diamond"⟩]) ++
               [⟨s1.node_count + 1 + 1, "", "point"⟩],
             (s1.edges ++ [⟨be, s1.node_count + 1, none⟩]) ++
               [⟨s1.node_count + 1, s.node_count + 1, some "true"⟩]⟩) from rfl] at h
        simp only [Except.ok.injEq] at h
        subst h
        constructor
        · refine inv_ext hInv1 (s1.node_count + 1 + 1) (some (s1.node_count + 1 + 1))
            s1.merge_stack
            [⟨s1.node_count + 1, "while (" ++ condlbl ++ ")", "diamond"⟩,
             ⟨s1.node_count + 1 + 1, "", "point"⟩]
            [⟨be, s1.node_count + 1, none⟩,
             ⟨s1.node_count + 1, s.node_count + 1, some "true"⟩,
             ⟨s1.node_count + 1, s1.node_count + 1 + 1, some "false"⟩] _ _
            (by simp [List.append_assoc]) (by simp [List.append_assoc]) (by omega)
            (by intro n hn; simp at hn; rcases hn with rfl | rfl <;> rfl) ?_
            (by intro p hp; injection hp with hp; omega)
          intro e he
          simp only [List.mem_cons, List.mem_singleton] at he
          rcases he with rfl | rfl | rfl | hfalse
          · exact ⟨show 2 ≤ s1.node_count + 1 from by have := hInv1.count_pos; omega,
              show be ≤ s1.node_count + 1 + 1 from by omega⟩
          · exact ⟨show 2 ≤ s.node_count + 1 from by have := hInv.count_pos; omega,
              show s1.node_count + 1 ≤ s1.node_count + 1 + 1 from by omega⟩
          · exact ⟨show 2 ≤ s1.node_count + 1 + 1 from by omega,
              show s1.node_count + 1 ≤ s1.node_count + 1 + 1 from by omega⟩
          · cases hfalse
        · show s.node_count ≤ s1.node_count + 1 + 1
          omega
      · -- type / main: no-op
        simp only [Except.ok.injEq] at h
        subst h
        exact ⟨hInv, le_refl _⟩
      · -- fallback: recurse over children
        exact ihC node.children s s' h hInv
    · intro l s s' h hInv
      cases l with
      | nil =>
        rw [processChildren.eq_def] at h
        simp only [Except.ok.injEq] at h
        subst h
        exact ⟨hInv, le_refl _⟩
      | cons hd rest =>
        rw [processChildren.eq_def] at h
        cases hd with
        | none =>
          simp only [] at h
          exact ihC rest s s' h hInv
        | some c =>
          simp only [bind, Except.bind] at h
          cases hc : processNode f c s with
          | error e => rw [hc] at h; exact absurd h (by simp)
          | ok s1 =>
            rw [hc] at h
            obtain ⟨hInv1, hle1⟩ := ihN c s s1 hc hInv
            obtain ⟨hInv2, hle2⟩ := ihC rest s1 s' h hInv1
            exact ⟨hInv2, le_trans hle1 hle2⟩

/-- C7: every graph produced by a completed `generate` run has exactly one
oval node labeled Start (node 1), which no edge targets, and exactly one
oval node labeled End (the highest-numbered node), which no edge leaves. -/
theorem generate_unique_start_end (fuel : Nat) (ast : ASTNode) (g : FC)
    (h : generate fuel ast = Except.ok g) :
    g.nodes.filter (fun n => n.shape == "oval" && n.label == "Start") =
      [⟨1, "Start", "oval"⟩] ∧
    g.nodes.filter (fun n => n.shape == "oval" && n.label == "End") =
      [⟨g.node_count, "End", "oval"⟩] ∧
    (∀ e ∈ g.edges, e.dst ≠ 1) ∧
    (∀ e ∈ g.edges, e.src ≠ g.node_count) := by
  have h0 : Inv ⟨1, some 1, [], [⟨1, "Start", "oval"⟩], []⟩ := by
    refine ⟨le_refl 1, rfl, ?_, ?_⟩
    · intro e he
      exact absurd he (by simp)
    · intro p hp
      injection hp with hp
      show p ≤ 1
      omega
  simp only [generate, bind, Except.bind] at h
  rw [show (setLast
      (addNode (newNodeId (⟨0, none, [], [], []⟩ : FC)).2
        (newNodeId (⟨0, none, [], [], []⟩ : FC)).1 "Start" "oval")
      (some (newNodeId (⟨0, none, [], [], []⟩ : FC)).1)) =
      (⟨1, some 1, [], [⟨1, "Start", "oval"⟩], []⟩ : FC) from rfl] at h
  cases hp : processNode fuel ast ⟨1, some 1, [], [⟨1, "Start", "oval"⟩], []⟩ with
  | error e => rw [hp] at h; simp at h
  | ok s1 =>
  rw [hp] at h
  simp only [] at h
  obtain ⟨hInv1, hle1⟩ := (processNode_inv fuel).1 ast _ s1 hp h0
  obtain ⟨hc1, hflt, hedg, hlst⟩ := hInv1
  rw [show (newNodeId s1) =
      (s1.node_count + 1, {s1 with node_count := s1.node_count + 1}) from rfl] at h
  simp only [addNode] at h
  try simp only [] at h
  cases hl : s1.last_node with
  | none =>
    rw [hl] at h
    try simp only [] at h
    simp only [Except.ok.injEq] at h
    subst h
    refine ⟨?_, ?_, ?_, ?_⟩
    · rw [filter_shape_label]
      show List.filter _ (List.filter _ (s1.nodes ++ _)) = _
      rw [List.filter_append, hflt]
      rfl
    · rw [filter_shape_label]
      show List.filter _ (List.filter _ (s1.nodes ++ _)) = _
      rw [List.filter_append, hflt]
      rfl
    · intro e he
      have := (hedg e he).1
      omega
    · intro e he
      have := (hedg e he).2
      show e.src ≠ s1.node_count + 1
      omega
  | some l =>
    rw [hl] at h
    simp only [addEdge] at h
    try simp only [] at h
    simp only [Except.ok.injEq] at h
    subst h
    have hlle : l ≤ s1.node_count := hlst l hl
    refine ⟨?_, ?_, ?_, ?_⟩
    · rw [filter_shape_label]
      show List.filter _ (List.filter _ (s1.nodes ++ _)) = _
      rw [List.filter_append, hflt]
      rfl
    · rw [filter_shape_label]
      show List.filter _ (List.filter _ (s1.nodes ++ _)) = _
      rw [List.filter_append, hflt]
      rfl
    · intro e he
      show e.dst ≠ 1
      rcases List.mem_append.mp he with h' | h'
      · have := (hedg e h').1
        omega
      · rw [List.mem_singleton] at h'
        subst h'
        show s1.node_count + 1 ≠ 1
        omega
    · intro e he
      show e.src ≠ s1.node_count + 1
      rcases List.mem_append.mp he with h' | h'
      · have := (hedg e h').2
        omega
      · rw [List.mem_singleton] at h'
        subst h'
        show l ≠ s1.node_count + 1
        omega

theorem generate_unique_start_end_witness :
    generate 30 astDoWhile = Except.ok gDoWhile ∧
    (gDoWhile.nodes.filter (fun n => n.shape == "oval" && n.label == "Start") =
        [⟨1, "Start", "oval"⟩] ∧
      gDoWhile.nodes.filter (fun n => n.shape == "oval" && n.label == "End") =
        [⟨gDoWhile.node_count, "End", "oval"⟩] ∧
      (∀ e ∈ gDoWhile.edges, e.dst ≠ 1) ∧
      (∀ e ∈ gDoWhile.edges, e.src ≠ gDoWhile.node_count)) :=
  ⟨rfl, generate_unique_start_end 30 astDoWhile gDoWhile rfl⟩

end CompProject
